import Mathlib

/-!
Verification of the Formula-1-Analytics ML pipeline against its
natural-language specification.

This file gives a shallow embedding, in Lean 4, of the parts of the
repository that the claims C1 to C10 are about:

* src/ml/models/elo.py   (ELOModel: ratings, train, predict, rankings)
* src/ml/models/base.py  (BaseF1Model.prepare_input)
* src/ml/feature_store.py (FeatureStore.prepare_training_data)
* src/ml/feature_engine.py (FeatureEngineer feature construction)
* src/ml/evaluation.py   (ModelEvaluator.evaluate_position_predictions)
* src/ml/pipeline.py     (the call in F1MLPipeline.run_store_state)

DataFrames are embedded as typed row lists.  pandas string comparison is
code-point lexicographic comparison; groupby iterates groups in sorted
key order while each group keeps the frame's current row order; a stable
sort (insertionSort) models sort_values; dict insertion order is the
association-list order.  Python floats are idealised: ratings are taken
in an arbitrary linearly ordered type (instantiated at the reals where
the ELO update formula, which uses a real exponential, is involved), and
numeric cells are rationals.
-/

namespace F1ML

/-! ### Generic helpers: the pandas/python primitives used by the code -/

/-- Code-point lexicographic strict comparison of char lists (the order
Python uses to compare strings, hence the order pandas groupby uses on
string keys). -/
def charListLt : List Char → List Char → Bool
  | [], [] => false
  | [], _ :: _ => true
  | _ :: _, [] => false
  | a :: as, b :: bs =>
    if a.toNat < b.toNat then true
    else if b.toNat < a.toNat then false
    else charListLt as bs

/-- Python string strict less-than. -/
def strLtB (a b : String) : Bool := charListLt a.toList b.toList

/-- Order of first appearance with duplicates removed: the semantics of
pandas Series.unique(), which the feature engineer iterates over. -/
def firstUniq {κ : Type} [DecidableEq κ] : List κ → List κ
  | [] => []
  | a :: t => a :: (firstUniq t).filter (fun b => !(b == a))

/-- Insert a key into a strictly sorted duplicate-free key list, keeping
it sorted and duplicate-free. -/
def insertSortedKey {κ : Type} [DecidableEq κ] (lt : κ → κ → Bool) (k : κ) :
    List κ → List κ
  | [] => [k]
  | k0 :: t =>
    if k = k0 then k0 :: t
    else if lt k k0 then k :: k0 :: t
    else k0 :: insertSortedKey lt k t

/-- The sorted duplicate-free list of group keys of a frame: the order in
which pandas groupby (with its default sort=True) iterates the groups. -/
def sortedKeys {α κ : Type} [DecidableEq κ] (lt : κ → κ → Bool) (key : α → κ)
    (rows : List α) : List κ :=
  rows.foldl (fun acc r => insertSortedKey lt (key r) acc) []

/-- Arithmetic mean of a list of rationals (np.mean on a nonempty
window). -/
def listMean (xs : List ℚ) : ℚ := xs.sum / xs.length

/-- Minimum of a list of rationals, 0 on the empty list (only ever used
on nonempty windows). -/
def listMinD : List ℚ → ℚ
  | [] => 0
  | a :: t => t.foldl min a

/-- The trailing window of width w ending at index i (inclusive), as used
by pandas rolling(window=w, min_periods=1). -/
def windowSlice (w : Nat) (xs : List ℚ) (i : Nat) : List ℚ :=
  (xs.take (i + 1)).drop (i + 1 - w)

/-- rolling(window=w, min_periods=1).mean() at index i. -/
def rollMean (w : Nat) (xs : List ℚ) (i : Nat) : ℚ := listMean (windowSlice w xs i)

/-- rolling(window=w, min_periods=1).sum() at index i. -/
def rollSum (w : Nat) (xs : List ℚ) (i : Nat) : ℚ := (windowSlice w xs i).sum

/-- expanding(min_periods=1).mean(): the i-th entry is the mean of the
first i+1 values. -/
def expandingMeans (xs : List ℚ) : List ℚ :=
  (List.range xs.length).map (fun i => listMean (xs.take (i + 1)))

/-- expanding(min_periods=1).min(): the i-th entry is the minimum of the
first i+1 values. -/
def expandingMins (xs : List ℚ) : List ℚ :=
  (List.range xs.length).map (fun i => listMinD (xs.take (i + 1)))

/-- Series.shift(1): entry 0 becomes missing, entry i becomes the old
entry i-1; the length is unchanged. -/
def shiftOne (xs : List ℚ) : List (Option ℚ) :=
  (none :: xs.map some).take xs.length

/-- Substring containment on char lists (the Python `in` test on
strings). -/
def hasSubSeq (hay pat : List Char) : Bool :=
  hay.tails.any (fun t => pat.isPrefixOf t)

/-- The status-to-flag map of the form features: 1 when the status text
contains "Finished" or "+", else 0. -/
def finishedFlag (s : String) : ℚ :=
  if hasSubSeq s.toList "Finished".toList || hasSubSeq s.toList "+".toList then 1 else 0

/-! ### ELO model: src/ml/models/elo.py

The rating state mirrors the ELOModel object: K-factor, initial rating,
the ratings dict and the rating-history dict (association lists in dict
insertion order), and the is_trained flag.  The state is parametric in
the rating type R; training, which uses the real exponential, works on
R = ℝ, while the claims about predict (which only compares ratings) are
stated for an arbitrary linear order. -/

/-- ELOModel.required_columns. -/
def requiredColumns : List String := ["Abbreviation", "Year", "EventName", "RoundNumber"]

/-- MLConfig.ELO_K_FACTOR. -/
def eloKFactor : ℝ := 32

/-- MLConfig.ELO_INITIAL_RATING. -/
def eloInitialRating : ℝ := 1500

/-- The mutable state of an ELOModel instance. -/
structure EloState (R : Type) where
  kFactor : R
  initialRating : R
  ratings : List (String × R)
  ratingHistory : List (String × List R)
  isTrained : Bool
deriving DecidableEq

/-- Assignment to an existing dict key keeps the key's position; to a new
key it appends at the end. -/
def setValue {β : Type} : List (String × β) → String → β → List (String × β)
  | [], k, v => [(k, v)]
  | (k0, v0) :: t, k, v =>
    if k0 = k then (k, v) :: t else (k0, v0) :: setValue t k v

/-- ELOModel._get_rating: returns the driver's rating, first assigning
the initial rating into both dicts when the driver is unseen. -/
def ELOModel.get_rating {R : Type} (st : EloState R) (driver : String) :
    EloState R × R :=
  match st.ratings.lookup driver with
  | some r => (st, r)
  | none =>
      ({ st with
          ratings := setValue st.ratings driver st.initialRating,
          ratingHistory := setValue st.ratingHistory driver [st.initialRating] },
        st.initialRating)

/-- self.rating_history[driver].append(new_rating); the driver is always
present when this runs (get_rating inserted it), the new-key case is
unreachable defensive totalisation. -/
def appendHistory {R : Type} : List (String × List R) → String → R → List (String × List R)
  | [], k, v => [(k, [v])]
  | (k0, h0) :: t, k, v =>
    if k0 = k then (k, h0 ++ [v]) :: t else (k0, h0) :: appendHistory t k v

/-- ELOModel._expected_score. -/
noncomputable def ELOModel.expected_score (ratingA ratingB : ℝ) : ℝ :=
  1 / (1 + (10 : ℝ) ^ ((ratingB - ratingA) / 400))

/-- ELOModel._update_ratings: updates the driver's rating (and history)
against the opponent with the given actual score, reading both current
ratings first (inserting initial ratings for unseen drivers). -/
noncomputable def ELOModel.update_ratings (st : EloState ℝ)
    (driver opponent : String) (actualScore : ℝ) : EloState ℝ :=
  let p1 := ELOModel.get_rating st driver
  let p2 := ELOModel.get_rating p1.1 opponent
  let expected := ELOModel.expected_score p1.2 p2.2
  let newRating := p1.2 + p2.1.kFactor * (actualScore - expected)
  { p2.1 with
      ratings := setValue p2.1.ratings driver newRating,
      ratingHistory := appendHistory p2.1.ratingHistory driver newRating }

/-- One row of the ELO training frame after data['Position'] = y. -/
structure EloRow where
  year : Int
  event : String
  round : Int
  abbr : String
  position : Int
deriving DecidableEq

/-- One row of an input frame X to ELOModel.train/predict (the position
comes separately as y for train, and is not read by predict). -/
structure EloX where
  year : Int
  event : String
  round : Int
  abbr : String
deriving DecidableEq

/-- data['Position'] = y: attach the target series to the frame. -/
def assignPosition (x : List EloX) (y : List Int) : List EloRow :=
  List.zipWith (fun r p => EloRow.mk r.year r.event r.round r.abbr p) x y

/-- sort_values(['Year', 'RoundNumber']) comparison. -/
def eloYrLe (a b : EloRow) : Prop :=
  a.year < b.year ∨ (a.year = b.year ∧ a.round ≤ b.round)

instance : DecidableRel eloYrLe := fun a b => by unfold eloYrLe; infer_instance

/-- sort_values('Position') comparison. -/
def posLe (a b : EloRow) : Prop := a.position ≤ b.position

instance : DecidableRel posLe := fun a b => by unfold posLe; infer_instance

instance : IsTotal EloRow posLe := ⟨fun a b => Int.le_total a.position b.position⟩

instance : IsTrans EloRow posLe := ⟨fun _ _ _ h1 h2 => le_trans h1 h2⟩

/-- data.sort_values(['Year', 'RoundNumber']) (a stable sort). -/
def sortEloRows (rows : List EloRow) : List EloRow := List.insertionSort eloYrLe rows

/-- The (Year, EventName) group key of a training row. -/
def eloRaceKey (r : EloRow) : Int × String := (r.year, r.event)

/-- The (Year, EventName) group key of a prediction row. -/
def eloXKey (r : EloX) : Int × String := (r.year, r.event)

/-- Comparison of (Year, EventName) group keys: ascending year, then
ascending event name in code-point order — the order groupby sorts its
keys in. -/
def raceKeyLtB (a b : Int × String) : Bool :=
  if a.1 < b.1 then true else if b.1 < a.1 then false else strLtB a.2 b.2

/-- The sequence of (Year, EventName) race keys in the order in which
ELOModel.train iterates the races: the groupby key order on the
(Year, RoundNumber)-sorted frame. -/
def trainRaceOrder (rows : List EloRow) : List (Int × String) :=
  sortedKeys raceKeyLtB eloRaceKey (sortEloRows rows)

/-- Chronological race order: the races in order of first appearance when
the rows are sorted by (Year, RoundNumber).  This is the order the claim
asserts for training; it is a statement-side definition, not code. -/
def chronoRaceOrder (rows : List EloRow) : List (Int × String) :=
  firstUniq ((sortEloRows rows).map eloRaceKey)

/-- The ordered pairs (drivers[i], drivers[j]) with i < j produced by the
nested loop of ELOModel.train. -/
def racePairs : List String → List (String × String)
  | [] => []
  | a :: rest => rest.map (fun b => (a, b)) ++ racePairs rest

/-- The driver pairs of one race in processing order: the race rows are
sorted by finishing position and then all i < j pairs are formed. -/
def processedPairs (raceGroup : List EloRow) : List (String × String) :=
  racePairs ((List.insertionSort posLe raceGroup).map (fun r => r.abbr))

/-- The per-race body of the ELOModel.train loop: for each i < j pair of
the position-sorted race the earlier driver gets actual score 1.0 and the
later driver 0.0, the two updates being applied sequentially. -/
noncomputable def processRace (st : EloState ℝ) (raceGroup : List EloRow) : EloState ℝ :=
  (processedPairs raceGroup).foldl
    (fun s p => ELOModel.update_ratings (ELOModel.update_ratings s p.1 p.2 1) p.2 p.1 0) st

/-- The error message of ELOModel.train for a missing required column
(quotation marks around the column name elided). -/
def trainErrorMessage (c : String) : String :=
  "ELO model requires " ++ (c ++ (" column in input data. " ++
    "Use model.prepare_input(X, meta) to merge identifier columns before calling train()."))

/-- The error message of ELOModel.predict for a missing required column
(quotation marks around the column name elided). -/
def predictErrorMessage (c : String) : String :=
  "ELO model requires " ++ (c ++ " column in input data.")

/-- The error message of ELOModel.predict on an untrained model. -/
def notTrainedMessage : String := "Model must be trained before prediction"

/-- ELOModel.train: raises on the first missing required column,
otherwise sorts by (Year, RoundNumber), iterates the (Year, EventName)
groups in groupby key order, runs the pairwise updates of each race, and
sets is_trained. -/
noncomputable def ELOModel.train (st : EloState ℝ) (xcols : List String)
    (x : List EloX) (y : List Int) : Except String (EloState ℝ) :=
  match requiredColumns.find? (fun c => !(xcols.contains c)) with
  | some c => .error (trainErrorMessage c)
  | none =>
      let data := assignPosition x y
      let dataSorted := sortEloRows data
      .ok { (trainRaceOrder data).foldl
              (fun s k => processRace s (dataSorted.filter (fun r => eloRaceKey r == k))) st
            with isTrained := true }

/-- Descending-rating comparison used by predict's sorted(..., key=rating,
reverse=True); with a stable sort this is exactly Python's stable
descending sort. -/
def ratingGe {R : Type} [LinearOrder R] (a b : String × R) : Prop := b.2 ≤ a.2

instance {R : Type} [LinearOrder R] : DecidableRel (@ratingGe R _) :=
  fun a b => inferInstanceAs (Decidable (b.2 ≤ a.2))

instance {R : Type} [LinearOrder R] : IsTotal (String × R) ratingGe :=
  ⟨fun a b => le_total b.2 a.2⟩

instance {R : Type} [LinearOrder R] : IsTrans (String × R) ratingGe :=
  ⟨fun _ _ _ h1 h2 => le_trans h2 h1⟩

/-- The list [(driver, self._get_rating(driver)) for driver in drivers]:
the comprehension evaluates get_rating driver by driver, threading the
mutated state. -/
def collectRatings {R : Type} : EloState R → List String → EloState R × List (String × R)
  | st, [] => (st, [])
  | st, d :: ds =>
      let p := ELOModel.get_rating st d
      let rest := collectRatings p.1 ds
      (rest.1, (d, p.2) :: rest.2)

/-- position_map = 'driver at index idx of the sorted list maps to
idx + 1', later duplicates overwriting earlier ones, then
position_map.get(driver, 20). -/
def positionMapGet {R : Type} (sorted : List (String × R)) (d : String) : Nat :=
  match List.lookup d ((sorted.enum.map (fun p => (p.2.1, p.1 + 1))).reverse) with
  | some i => i
  | none => 20

/-- The per-group loop of ELOModel.predict: for each (Year, EventName)
key, in order, take the group's rows (the frame's rows with that key, in
frame order), collect the current rating of every driver of the group
(inserting initial ratings for unseen drivers), sort the pairs by rating
descending, and map each driver of the group to its 1-based position in
that sorted order; predictions.extend appends the group's predictions. -/
def predictGroups {R : Type} [LinearOrder R] (x : List EloX) :
    EloState R → List (Int × String) → List Nat × EloState R
  | st, [] => ([], st)
  | st, k :: ks =>
      let g := x.filter (fun r => eloXKey r == k)
      let drivers := g.map (fun r => r.abbr)
      let p := collectRatings st drivers
      let sorted := List.insertionSort ratingGe p.2
      let rest := predictGroups x p.1 ks
      (drivers.map (positionMapGet sorted) ++ rest.1, rest.2)

/-- ELOModel.predict: checks the trained flag, then the required columns,
then runs the grouped prediction loop over the groupby keys of the input
frame. -/
def ELOModel.predict {R : Type} [LinearOrder R] (st : EloState R)
    (xcols : List String) (x : List EloX) :
    Except String (List Nat × EloState R) :=
  if st.isTrained = false then .error notTrainedMessage
  else
    match requiredColumns.find? (fun c => !(xcols.contains c)) with
    | some c => .error (predictErrorMessage c)
    | none => .ok (predictGroups x st (sortedKeys raceKeyLtB eloXKey x))

/-- ELOModel.get_current_rankings: the ratings dict sorted by rating
descending, each entry paired with its 1-based rank. -/
def ELOModel.get_current_rankings {R : Type} [LinearOrder R] (st : EloState R) :
    List (String × R × Nat) :=
  (List.insertionSort ratingGe st.ratings).enum.map
    (fun p => (p.2.1, p.2.2, p.1 + 1))

/-- The rating predict uses for a driver: the stored one, or the initial
rating when the driver is unseen (statement-side shorthand). -/
def ratingOf {R : Type} (st : EloState R) (d : String) : R :=
  (st.ratings.lookup d).getD st.initialRating

/-- The drivers appearing in a prediction input. -/
def xDrivers (x : List EloX) : List String := x.map (fun r => r.abbr)

/-! ### BaseF1Model.prepare_input: src/ml/models/base.py

For prepare_input only the column sets and the row counts of the two
frames matter; a frame is embedded as its column list and row count. -/

/-- A DataFrame reduced to its shape data: column names and row count. -/
structure PDataFrame where
  cols : List String
  nrows : Nat
deriving DecidableEq

/-- pandas DataFrame.empty: true when either axis has length zero. -/
def PDataFrame.isEmptyDf (df : PDataFrame) : Bool :=
  df.nrows = 0 || df.cols.isEmpty

/-- The message body listing the missing columns (Python prints the list
repr; the bracket-and-quote decoration is elided). -/
def missingColumnsText (missing : List String) : String :=
  String.intercalate ", " missing

/-- BaseF1Model.prepare_input: returns X unchanged when the model has no
required columns or none is missing; otherwise raises when meta is
absent or empty; otherwise concatenates onto X (after reset_index on
both sides) exactly those missing required columns that meta has,
raising only when meta has none of them.  pd.concat(axis=1) keeps
max(len(X), len(meta)) rows. -/
def BaseF1Model.prepare_input (name : String) (required : List String)
    (x : PDataFrame) (meta : Option PDataFrame) : Except String PDataFrame :=
  if required.isEmpty then .ok x
  else
    let missing := required.filter (fun c => !(x.cols.contains c))
    if missing.isEmpty then .ok x
    else
      match meta with
      | none => .error (name ++ (" requires columns " ++ (missingColumnsText missing ++ " but meta is empty")))
      | some m =>
          if m.isEmptyDf then
            .error (name ++ (" requires columns " ++ (missingColumnsText missing ++ " but meta is empty")))
          else
            let available := missing.filter (fun c => m.cols.contains c)
            if available.isEmpty then
              .error (name ++ (" requires columns " ++ (missingColumnsText missing ++ " but they are not in X or meta")))
            else .ok { cols := x.cols ++ available, nrows := max x.nrows m.nrows }

/-! ### FeatureStore.prepare_training_data: src/ml/feature_store.py

The feature frame is embedded as a column list plus rows of named cells;
a cell is a rational, a string, or missing (NaN). -/

/-- A pandas cell. -/
inductive PValue
  | num (q : ℚ)
  | str (s : String)
  | null
deriving DecidableEq

/-- A feature-frame row: named cells. -/
abbrev SRow := List (String × PValue)

/-- A feature frame. -/
structure FTable where
  cols : List String
  rows : List SRow
deriving DecidableEq

/-- Cell access (missing cells read as NaN). -/
def cellOf (r : SRow) (c : String) : PValue := (List.lookup c r).getD PValue.null

/-- Whether a cell is NaN. -/
def PValue.isNull : PValue → Bool
  | .null => true
  | _ => false

/-- The exclusion list of prepare_training_data: the target column plus
the fixed identifier/metadata columns. -/
def excludedColumns (targetCol : String) : List String :=
  [targetCol, "Year", "EventName", "RoundNumber", "Abbreviation", "TeamName",
    "FullName", "Status", "Country", "DriverNumber"]

/-- feature_cols: every column not excluded. -/
def featureColumns (features : FTable) (targetCol : String) : List String :=
  features.cols.filter (fun c => !((excludedColumns targetCol).contains c))

/-- features.dropna(subset=feature_cols + [target_col]): the rows kept. -/
def cleanRows (features : FTable) (targetCol : String) : List SRow :=
  features.rows.filter
    (fun r => (featureColumns features targetCol ++ [targetCol]).all
      (fun c => !(cellOf r c).isNull))

/-- split_idx = int(len(X) * (1 - test_size)). -/
def splitIndex (n : Nat) (testSize : ℚ) : Nat :=
  (Int.floor ((n : ℚ) * (1 - testSize))).toNat

/-- The rows underlying the training split: X.iloc[:split_idx]. -/
def trainSplitRows (features : FTable) (targetCol : String) (testSize : ℚ) : List SRow :=
  (cleanRows features targetCol).take (splitIndex (cleanRows features targetCol).length testSize)

/-- The rows underlying the test split: X.iloc[split_idx:]. -/
def testSplitRows (features : FTable) (targetCol : String) (testSize : ℚ) : List SRow :=
  (cleanRows features targetCol).drop (splitIndex (cleanRows features targetCol).length testSize)

/-- Projection of a row onto the feature columns. -/
def projectRow (fcols : List String) (r : SRow) : SRow :=
  fcols.map (fun c => (c, cellOf r c))

/-- MLConfig.TEST_SPLIT_RATIO (the default test size). -/
def testSplitRatio : ℚ := 1 / 5

/-- FeatureStore.prepare_training_data: selects the non-excluded columns,
drops rows with missing values in them or in the target, and splits the
remaining rows positionally at int(len * (1 - test_size)).  It returns
exactly four components (X_train, X_test, y_train, y_test) — there is no
metadata side-table among them. -/
def FeatureStore.prepare_training_data (features : FTable) (targetCol : String)
    (testSize : ℚ) : FTable × FTable × List PValue × List PValue :=
  let fcols := featureColumns features targetCol
  let clean := cleanRows features targetCol
  let xall := clean.map (projectRow fcols)
  let yall := clean.map (fun r => cellOf r targetCol)
  let k := splitIndex clean.length testSize
  (⟨fcols, xall.take k⟩, ⟨fcols, xall.drop k⟩, yall.take k, yall.drop k)

/-- The Year cell of a row as a number (0 when absent or non-numeric). -/
def yearOf (r : SRow) : ℚ :=
  match cellOf r "Year" with
  | .num q => q
  | _ => 0

/-- The RoundNumber cell of a row as a number. -/
def roundOf (r : SRow) : ℚ :=
  match cellOf r "RoundNumber" with
  | .num q => q
  | _ => 0

/-- Row a is strictly earlier in time than row b (statement-side: the
spec's chronological order on (Year, RoundNumber)). -/
def timeEarlier (a b : SRow) : Prop :=
  yearOf a < yearOf b ∨ (yearOf a = yearOf b ∧ roundOf a < roundOf b)

/-- Row a is no later in time than row b. -/
def timeLe (a b : SRow) : Prop :=
  yearOf a < yearOf b ∨ (yearOf a = yearOf b ∧ roundOf a ≤ roundOf b)

instance : DecidableRel timeEarlier := fun a b => by unfold timeEarlier; infer_instance

instance : DecidableRel timeLe := fun a b => by unfold timeLe; infer_instance

/-- The claim's chronological-split property (statement-side): every test
row is strictly later in time than every training row. -/
def chronologicalSplit (features : FTable) (targetCol : String) (testSize : ℚ) : Prop :=
  ∀ a ∈ trainSplitRows features targetCol testSize,
    ∀ b ∈ testSplitRows features targetCol testSize, timeEarlier a b

/-- The parameter names of FeatureStore.prepare_training_data as defined
in src/ml/feature_store.py (self elided). -/
def prepareTrainingDataParams : List String := ["features", "target_col", "test_size"]

/-- Python keyword-argument binding: a keyword that is not a parameter of
the callee raises TypeError. -/
def pyCallKeywordCheck (fname : String) (params : List String) (kwargs : List String) :
    Except String Unit :=
  match kwargs.find? (fun k => !(params.contains k)) with
  | some k =>
      .error ("TypeError: " ++ (fname ++ ("() got an unexpected keyword argument " ++ k)))
  | none => .ok ()

/-- The call in F1MLPipeline.run_store_state (src/ml/pipeline.py):
prepare_training_data(self.features, metadata_cols=[...]). -/
def runStoreStatePrepareCall : Except String Unit :=
  pyCallKeywordCheck "prepare_training_data" prepareTrainingDataParams ["metadata_cols"]

/-- Python tuple unpacking: unpacking a tuple of size provided into
expected names raises ValueError unless the sizes agree. -/
def pyUnpackCheck (provided expected : Nat) : Except String Unit :=
  if provided = expected then .ok () else .error "ValueError: tuple unpack size mismatch"

/-- prepare_training_data returns a 4-tuple. -/
def prepareReturnCount : Nat := 4

/-- The unit tests (src/tests/test_ml_pipeline.py) unpack the result of
prepare_training_data into six names, the last two being the metadata
side-tables meta_train and meta_test. -/
def testsExpectedReturnCount : Nat := 6

/-! ### FeatureEngineer: src/ml/feature_engine.py -/

/-- One raw race-result row (the columns the feature engineer reads). -/
structure RaceRow where
  year : Int
  round : Int
  event : String
  abbr : String
  team : String
  position : Int
  points : Int
  grid : Int
  status : String
deriving DecidableEq

/-- One qualifying-result row (the columns create_qualifying_features
selects: Year, EventName, Abbreviation, Position). -/
structure QualRow where
  year : Int
  event : String
  abbr : String
  qpos : Int
deriving DecidableEq

/-- A race row together with the engineered feature columns added by the
successive steps (missing until the corresponding step fills them). -/
structure FRow where
  base : RaceRow
  avgPos3 : Option ℚ := none
  avgPos5 : Option ℚ := none
  pts3 : Option ℚ := none
  pts5 : Option ℚ := none
  finRate5 : Option ℚ := none
  podiums5 : Option ℚ := none
  qualPos : Option ℚ := none
  gridQualiDelta : Option ℚ := none
  teamAvgPos3 : Option ℚ := none
  teamPts3 : Option ℚ := none
  teamFinRate5 : Option ℚ := none
  trackAvgPos : Option ℚ := none
  trackBestPos : Option ℚ := none
  trackRaces : Option ℚ := none
  champPos : Option ℚ := none
  raceNumber : Option ℚ := none
  isHomeRace : Option ℚ := none
deriving DecidableEq

/-- Wrap a raw race row as a feature row with no features yet. -/
def initFRow (r : RaceRow) : FRow := { base := r }

/-- sort_values(['Year', 'RoundNumber']) comparison on feature rows. -/
def frowYrLe (a b : FRow) : Prop :=
  a.base.year < b.base.year ∨ (a.base.year = b.base.year ∧ a.base.round ≤ b.base.round)

instance : DecidableRel frowYrLe := fun a b => by unfold frowYrLe; infer_instance

/-- results_df.sort_values(['Year', 'RoundNumber']) (a stable sort). -/
def sortFRows (rows : List FRow) : List FRow := List.insertionSort frowYrLe rows

/-- The per-driver body of create_driver_form_features: the rolling form
statistics over the driver's chronologically sorted rows. -/
def driverFormChunk (dd : List FRow) : List FRow :=
  let posSeq := dd.map (fun r => (r.base.position : ℚ))
  let ptsSeq := dd.map (fun r => (r.base.points : ℚ))
  let finSeq := dd.map (fun r => finishedFlag r.base.status)
  let podSeq := dd.map (fun r => if r.base.position ≤ 3 then (1 : ℚ) else 0)
  dd.mapIdx (fun i r =>
    { r with
        avgPos3 := some (rollMean 3 posSeq i),
        avgPos5 := some (rollMean 5 posSeq i),
        pts3 := some (rollSum 3 ptsSeq i),
        pts5 := some (rollSum 5 ptsSeq i),
        finRate5 := some (rollMean 5 finSeq i),
        podiums5 := some (rollSum 5 podSeq i) })

/-- FeatureEngineer.create_driver_form_features: sort chronologically,
then for each driver (in order of first appearance) compute the rolling
form statistics of that driver's rows; the per-driver blocks are
concatenated. -/
def FeatureEngineer.create_driver_form_features (rows : List FRow) : List FRow :=
  let sorted := sortFRows rows
  (firstUniq (sorted.map (fun r => r.base.abbr))).flatMap
    (fun d => driverFormChunk (sorted.filter (fun r => r.base.abbr == d)))

/-- FeatureEngineer.create_qualifying_features: left-merge the qualifying
positions on (Year, EventName, Abbreviation), fill unmatched rows with
the sentinel 20, and add the grid-minus-qualifying delta.  A race row is
replicated once per matching qualifying row (left-join semantics). -/
def FeatureEngineer.create_qualifying_features (race : List FRow) (qual : List QualRow) :
    List FRow :=
  race.flatMap (fun r =>
    let ms := qual.filter (fun q =>
      q.year == r.base.year && (q.event == r.base.event && q.abbr == r.base.abbr))
    match ms with
    | [] => [{ r with
                qualPos := some 20,
                gridQualiDelta := some ((r.base.grid : ℚ) - 20) }]
    | _ => ms.map (fun q =>
        { r with
            qualPos := some (q.qpos : ℚ),
            gridQualiDelta := some ((r.base.grid : ℚ) - (q.qpos : ℚ)) }))

/-- The per-team body of create_team_features. -/
def teamFormChunk (td : List FRow) : List FRow :=
  let posSeq := td.map (fun r => (r.base.position : ℚ))
  let ptsSeq := td.map (fun r => (r.base.points : ℚ))
  let finSeq := td.map (fun r => finishedFlag r.base.status)
  td.mapIdx (fun i r =>
    { r with
        teamAvgPos3 := some (rollMean 3 posSeq i),
        teamPts3 := some (rollSum 3 ptsSeq i),
        teamFinRate5 := some (rollMean 5 finSeq i) })

/-- FeatureEngineer.create_team_features. -/
def FeatureEngineer.create_team_features (rows : List FRow) : List FRow :=
  let sorted := sortFRows rows
  (firstUniq (sorted.map (fun r => r.base.team))).flatMap
    (fun tm => teamFormChunk (sorted.filter (fun r => r.base.team == tm)))

/-- The per-(driver, track) body of create_track_history_features: the
expanding mean and minimum of the finishing position, both lagged one
step by shift(1), plus the 0-based visit counter. -/
def trackChunk (td : List FRow) : List FRow :=
  let posSeq := td.map (fun r => (r.base.position : ℚ))
  let avgs := shiftOne (expandingMeans posSeq)
  let bests := shiftOne (expandingMins posSeq)
  td.mapIdx (fun i r =>
    { r with
        trackAvgPos := (avgs.getD i none),
        trackBestPos := (bests.getD i none),
        trackRaces := some (i : ℚ) })

/-- FeatureEngineer.create_track_history_features: sort chronologically,
then for each driver (first-appearance order) and each of that driver's
tracks (first-appearance order) compute the lagged expanding statistics
of the (driver, track) visit sequence. -/
def FeatureEngineer.create_track_history_features (rows : List FRow) : List FRow :=
  let sorted := sortFRows rows
  (firstUniq (sorted.map (fun r => r.base.abbr))).flatMap (fun d =>
    let dd := sorted.filter (fun r => r.base.abbr == d)
    (firstUniq (dd.map (fun r => r.base.event))).flatMap (fun t =>
      trackChunk (dd.filter (fun r => r.base.event == t))))

/-- The chronologically sorted visit list of one (driver, track) pair, as
create_track_history_features builds it. -/
def pairVisits (rows : List FRow) (d t : String) : List FRow :=
  ((sortFRows rows).filter (fun r => r.base.abbr == d)).filter (fun r => r.base.event == t)

/-- Descending comparison on summed points (sort_values(ascending=False)
of the standings). -/
def ptsGe (a b : String × Int) : Prop := b.2 ≤ a.2

instance : DecidableRel ptsGe := fun a b => by unfold ptsGe; infer_instance

/-- The standings built from the rows of the previous rounds:
groupby('Abbreviation')['Points'].sum() (keys in sorted order), sorted by
points descending, each driver paired with its 1-based championship
position. -/
def champStandings (prev : List FRow) : List (String × Int) :=
  let drivers := sortedKeys strLtB (fun r => r.base.abbr) prev
  let sums := drivers.map (fun d =>
    (d, ((prev.filter (fun r => r.base.abbr == d)).map (fun r => r.base.points)).sum))
  (List.insertionSort ptsGe sums).enum.map (fun p => (p.2.1, (p.1 : Int) + 1))

/-- The per-row assignment of the championship step: look the driver up
in the standings of the previous rounds, defaulting to the sentinel
position 20 (driver_standings.get(abbreviation, 20)). -/
def champAssign (st : List (String × Int)) (r : FRow) : FRow :=
  match List.lookup r.base.abbr st with
  | some rank => { r with champPos := some (rank : ℚ) }
  | none => { r with champPos := some 20 }

/-- FeatureEngineer.create_championship_position_features: for each year
and each round (both in first-appearance order of the chronologically
sorted frame), rank the drivers by the points of the strictly earlier
rounds; rows of drivers without prior points, and all rows of the first
round, get the sentinel position 20. -/
def FeatureEngineer.create_championship_position_features (rows : List FRow) : List FRow :=
  let sorted := sortFRows rows
  (firstUniq (sorted.map (fun r => r.base.year))).flatMap (fun y =>
    let yd := sorted.filter (fun r => r.base.year == y)
    (firstUniq (yd.map (fun r => r.base.round))).flatMap (fun rd =>
      let roundData := yd.filter (fun r => r.base.round == rd)
      let prev := yd.filter (fun r => decide (r.base.round < rd))
      if prev.isEmpty then roundData.map (fun r => { r with champPos := some 20 })
      else roundData.map (champAssign (champStandings prev))))

/-- FeatureEngineer.engineer_all_features: the composition of all feature
steps plus the final RaceNumber and IsHomeRace columns. -/
def FeatureEngineer.engineer_all_features (race : List RaceRow) (qual : List QualRow) :
    List FRow :=
  let df0 := race.map initFRow
  let df1 := FeatureEngineer.create_driver_form_features df0
  let df2 := FeatureEngineer.create_qualifying_features df1 qual
  let df3 := FeatureEngineer.create_team_features df2
  let df4 := FeatureEngineer.create_track_history_features df3
  let df5 := FeatureEngineer.create_championship_position_features df4
  df5.map (fun r => { r with raceNumber := some (r.base.round : ℚ), isHomeRace := some 0 })

/-- The underlying raw race rows of a feature frame (statement-side
shorthand: each feature step carries the original row along unchanged,
and row preservation is stated about this projection). -/
def bases (l : List FRow) : List RaceRow := l.map (fun r => r.base)

/-- The (Year, RoundNumber, Abbreviation) key of a raw race row. -/
def raceRowKey (r : RaceRow) : Int × Int × String := (r.year, r.round, r.abbr)

/-- The (Year, RoundNumber, Abbreviation) key of a feature row. -/
def frowKey (r : FRow) : Int × Int × String := (r.base.year, r.base.round, r.base.abbr)

/-- The (Year, EventName, Abbreviation) merge key of a qualifying row. -/
def qualKey (q : QualRow) : Int × String × String := (q.year, q.event, q.abbr)

/-! ### ModelEvaluator.evaluate_position_predictions: src/ml/evaluation.py -/

/-- np.round: round half to even (banker's rounding). -/
def npRound (q : ℚ) : ℚ :=
  let f : Int := Int.floor q
  if q - f < 1 / 2 then f
  else if (1 : ℚ) / 2 < q - f then f + 1
  else if f % 2 = 0 then f else f + 1

/-- np.mean((y_pred <= k) == (y_true <= k)): the fraction of rows whose
predicted-rank-at-most-k flag matches the true one. -/
def topkAccuracy (k : ℚ) (yTrue yPred : List ℚ) : ℚ :=
  ((yTrue.zip yPred).countP (fun p => decide (p.2 ≤ k) == decide (p.1 ≤ k)) : ℚ)
    / (yTrue.zip yPred).length

/-- np.mean(y_true == np.round(y_pred)). -/
def exactAccuracy (yTrue yPred : List ℚ) : ℚ :=
  ((yTrue.zip yPred).countP (fun p => p.1 == npRound p.2) : ℚ) / (yTrue.zip yPred).length

/-- np.mean(np.abs(y_true - y_pred) <= d). -/
def withinAccuracy (d : ℚ) (yTrue yPred : List ℚ) : ℚ :=
  ((yTrue.zip yPred).countP (fun p => decide (|p.1 - p.2| ≤ d)) : ℚ)
    / (yTrue.zip yPred).length

/-- np.mean(np.abs(y_true - y_pred)). -/
def maeOf (yTrue yPred : List ℚ) : ℚ :=
  (((yTrue.zip yPred).map (fun p => |p.1 - p.2|)).sum) / (yTrue.zip yPred).length

/-- The metrics dict of evaluate_position_predictions (the fields the
claims are about; mae stands in for the error block, and the rmse and r2
fields are omitted from the record as no claim mentions them). -/
structure EvalMetrics where
  mae : ℚ
  top3Accuracy : ℚ
  top5Accuracy : ℚ
  top10Accuracy : ℚ
  exactAcc : ℚ
  within1 : ℚ
  within2 : ℚ
  within3 : ℚ
deriving DecidableEq

/-- ModelEvaluator.evaluate_position_predictions (the metric block used
by the claims). -/
def ModelEvaluator.evaluate_position_predictions (yTrue yPred : List ℚ) : EvalMetrics :=
  { mae := maeOf yTrue yPred,
    top3Accuracy := topkAccuracy 3 yTrue yPred,
    top5Accuracy := topkAccuracy 5 yTrue yPred,
    top10Accuracy := topkAccuracy 10 yTrue yPred,
    exactAcc := exactAccuracy yTrue yPred,
    within1 := withinAccuracy 1 yTrue yPred,
    within2 := withinAccuracy 2 yTrue yPred,
    within3 := withinAccuracy 3 yTrue yPred }

/-- Statement-side top-k accuracy, phrased as the claim phrases it: the
fraction of row indices at which membership of the predicted rank in the
top k coincides with membership of the true rank in the top k. -/
def specTopK (k : ℚ) (yTrue yPred : List ℚ) (n : Nat) : ℚ :=
  (((List.range n).countP
      (fun i => decide ((yPred.getD i 0 ≤ k) ↔ (yTrue.getD i 0 ≤ k)))) : ℚ) / n

/-- Statement-side exact-match accuracy: the fraction of row indices at
which the true position equals the rounded predicted position. -/
def specExact (yTrue yPred : List ℚ) (n : Nat) : ℚ :=
  (((List.range n).countP (fun i => yTrue.getD i 0 == npRound (yPred.getD i 0))) : ℚ) / n

/-- Statement-side within-tolerance accuracy: the fraction of row indices
with absolute error at most d. -/
def specWithin (d : ℚ) (yTrue yPred : List ℚ) (n : Nat) : ℚ :=
  (((List.range n).countP (fun i => decide (|yTrue.getD i 0 - yPred.getD i 0| ≤ d))) : ℚ) / n

/-! ### Concrete sample inputs used by counterexamples and witnesses -/

/-- A junk feature row (default second argument of getD). -/
def dummyFRow : FRow :=
  { base := { year := 0, round := 0, event := "", abbr := "", team := "",
              position := 0, points := 0, grid := 0, status := "" } }

/-- A trained rational-rating ELO state knowing one driver VER at 1600. -/
def c4state : EloState ℚ :=
  { kFactor := 32, initialRating := 1500, ratings := [("VER", 1600)],
    ratingHistory := [("VER", [1500, 1600])], isTrained := true }

/-- A one-race prediction input containing the known driver VER and the
never-trained driver NEW. -/
def c4x : List EloX :=
  [{ year := 2024, event := "Bahrain", round := 1, abbr := "VER" },
   { year := 2024, event := "Bahrain", round := 1, abbr := "NEW" }]

/-- A trained real-rating ELO state with an empty ratings dict. -/
noncomputable def c2state : EloState ℝ :=
  { kFactor := eloKFactor, initialRating := eloInitialRating, ratings := [],
    ratingHistory := [], isTrained := true }

/-- A two-race season in which round 1 (Spain) has an event name that
sorts after round 2 (Bahrain). -/
def c5rows : List EloRow :=
  [{ year := 2024, event := "Spain", round := 1, abbr := "AAA", position := 1 },
   { year := 2024, event := "Spain", round := 1, abbr := "BBB", position := 2 },
   { year := 2024, event := "Bahrain", round := 2, abbr := "AAA", position := 1 },
   { year := 2024, event := "Bahrain", round := 2, abbr := "BBB", position := 2 }]

/-- The prediction-input projection of the c5 season. -/
def c5x : List EloX :=
  [{ year := 2024, event := "Spain", round := 1, abbr := "AAA" },
   { year := 2024, event := "Spain", round := 1, abbr := "BBB" },
   { year := 2024, event := "Bahrain", round := 2, abbr := "AAA" },
   { year := 2024, event := "Bahrain", round := 2, abbr := "BBB" }]

/-- The target positions of the c5 season. -/
def c5y : List Int := [1, 2, 1, 2]

/-- The first race of the c5 season as a training group. -/
def c5group : List EloRow :=
  [{ year := 2024, event := "Spain", round := 1, abbr := "AAA", position := 1 },
   { year := 2024, event := "Spain", round := 1, abbr := "BBB", position := 2 }]

/-- Row AAA of the c5 first race. -/
def c5rowA : EloRow := { year := 2024, event := "Spain", round := 1, abbr := "AAA", position := 1 }

/-- Row BBB of the c5 first race. -/
def c5rowB : EloRow := { year := 2024, event := "Spain", round := 1, abbr := "BBB", position := 2 }

/-- A two-row race frame for the feature-engineering claims. -/
def c7race : List RaceRow :=
  [{ year := 2024, round := 1, event := "GP1", abbr := "VER", team := "Red Bull",
     position := 1, points := 25, grid := 1, status := "Finished" },
   { year := 2024, round := 1, event := "GP1", abbr := "LEC", team := "Ferrari",
     position := 2, points := 18, grid := 2, status := "Finished" }]

/-- A qualifying frame with a duplicated (Year, EventName, Abbreviation)
key. -/
def c7qual : List QualRow :=
  [{ year := 2024, event := "GP1", abbr := "VER", qpos := 1 },
   { year := 2024, event := "GP1", abbr := "VER", qpos := 1 }]

/-- A duplicate-free qualifying frame for the same race frame. -/
def c7qualGood : List QualRow :=
  [{ year := 2024, event := "GP1", abbr := "VER", qpos := 1 },
   { year := 2024, event := "GP1", abbr := "LEC", qpos := 2 }]

/-- A three-visit (driver, track) history used to witness the
track-history claim. -/
def c6rows : List FRow :=
  [initFRow { year := 2023, round := 1, event := "GP1", abbr := "VER", team := "RB",
              position := 3, points := 15, grid := 1, status := "Finished" },
   initFRow { year := 2024, round := 1, event := "GP1", abbr := "VER", team := "RB",
              position := 1, points := 25, grid := 1, status := "Finished" },
   initFRow { year := 2025, round := 1, event := "GP1", abbr := "VER", team := "RB",
              position := 2, points := 18, grid := 1, status := "Finished" }]

/-- A 2025 feature row. -/
def c8rowLate : SRow :=
  [("Year", .num 2025), ("RoundNumber", .num 1), ("f1", .num 1), ("Position", .num 1)]

/-- A 2024 feature row. -/
def c8rowEarly : SRow :=
  [("Year", .num 2024), ("RoundNumber", .num 1), ("f1", .num 2), ("Position", .num 2)]

/-- A feature table whose rows are in reverse chronological order. -/
def c8features : FTable :=
  { cols := ["Year", "RoundNumber", "f1", "Position"],
    rows := [c8rowLate, c8rowEarly] }

/-- The same feature table with its rows in chronological order. -/
def c8sorted : FTable :=
  { cols := ["Year", "RoundNumber", "f1", "Position"],
    rows := [c8rowEarly, c8rowLate] }

/-! ### Helper lemmas about the pandas primitives -/

theorem mem_firstUniq {κ : Type} [DecidableEq κ] {a : κ} :
    ∀ {l : List κ}, a ∈ firstUniq l ↔ a ∈ l
  | [] => Iff.rfl
  | b :: t => by
    by_cases hab : a = b
    · subst hab; simp [firstUniq]
    · simp [firstUniq, hab, List.mem_filter, mem_firstUniq (l := t)]

theorem firstUniq_nodup {κ : Type} [DecidableEq κ] : ∀ (l : List κ), (firstUniq l).Nodup
  | [] => List.nodup_nil
  | b :: t => by
    rw [firstUniq, List.nodup_cons]
    refine ⟨fun hmem => ?_, (firstUniq_nodup t).filter _⟩
    have := (List.mem_filter.mp hmem).2
    simp at this

theorem flatMap_congr_mem {α β : Type} {l : List α} {f g : α → List β}
    (h : ∀ a ∈ l, f a = g a) : l.flatMap f = l.flatMap g := by
  induction l with
  | nil => rfl
  | cons a t ih =>
      rw [List.flatMap_cons, List.flatMap_cons, h a (by simp),
        ih (fun x hx => h x (by simp [hx]))]

theorem flatMap_eq_nil_of {α β : Type} {l : List α} {f : α → List β}
    (h : ∀ a ∈ l, f a = []) : l.flatMap f = [] := by
  induction l with
  | nil => rfl
  | cons a t ih =>
      rw [List.flatMap_cons, h a (by simp), ih (fun x hx => h x (by simp [hx]))]
      rfl

theorem flatMap_filter_perm_of {α κ : Type} [DecidableEq κ] (key : α → κ) :
    ∀ (ks : List κ) (xs : List α), ks.Nodup → (∀ x ∈ xs, key x ∈ ks) →
      List.Perm (ks.flatMap (fun k => xs.filter (fun x => key x == k))) xs
  | [], xs, _, hcov => by
      cases xs with
      | nil => simp
      | cons x t => exact absurd (hcov x (by simp)) (by simp)
  | k :: ks2, xs, hnd, hcov => by
      have hk : k ∉ ks2 := (List.nodup_cons.mp hnd).1
      have hnd2 : ks2.Nodup := (List.nodup_cons.mp hnd).2
      have hstep : ∀ k2 ∈ ks2,
          xs.filter (fun x => key x == k2) =
            (xs.filter (fun x => !(key x == k))).filter (fun x => key x == k2) := by
        intro k2 hk2
        rw [List.filter_filter]
        apply List.filter_congr
        intro x _
        by_cases h : key x = k2
        · have hxk : ¬ key x = k := by
            rintro rfl
            exact hk (h ▸ hk2)
          have hk2k : ¬ k2 = k := fun he => hxk (h.trans he)
          simp [h, hxk, hk2k]
        · simp [h]
      have hcov2 : ∀ x ∈ xs.filter (fun x => !(key x == k)), key x ∈ ks2 := by
        intro x hx
        have hxs : x ∈ xs := (List.mem_filter.mp hx).1
        have hne : ¬ key x = k := by
          have := (List.mem_filter.mp hx).2
          simpa using this
        rcases List.mem_cons.mp (hcov x hxs) with h | h
        · exact absurd h hne
        · exact h
      have hperm2 : List.Perm (ks2.flatMap (fun k2 => xs.filter (fun x => key x == k2)))
          (xs.filter (fun x => !(key x == k))) := by
        rw [flatMap_congr_mem hstep]
        exact flatMap_filter_perm_of key ks2 _ hnd2 hcov2
      rw [List.flatMap_cons]
      exact (List.Perm.append_left _ hperm2).trans (List.filter_append_perm _ xs)

theorem partition_perm {α κ : Type} [DecidableEq κ] (key : α → κ) (xs : List α) :
    List.Perm ((firstUniq (xs.map key)).flatMap (fun k => xs.filter (fun x => key x == k))) xs :=
  flatMap_filter_perm_of key _ xs (firstUniq_nodup _)
    (fun x hx => mem_firstUniq.mpr (List.mem_map_of_mem key hx))

theorem map_mapIdx_eq {α β : Type} (g : α → β) :
    ∀ (f : Nat → α → α) (l : List α), (∀ i a, g (f i a) = g a) → (l.mapIdx f).map g = l.map g
  | _, [], _ => rfl
  | f, a :: t, h => by
      rw [List.mapIdx_cons, List.map_cons, List.map_cons, h 0 a,
        map_mapIdx_eq g (fun i => f (i + 1)) t (fun i a => h (i + 1) a)]

theorem map_flatMap_singleton {α β : Type} (g : α → β) (f : α → List α)
    (h : ∀ a, (f a).map g = [g a]) : ∀ (l : List α), (l.flatMap f).map g = l.map g
  | [] => rfl
  | a :: t => by
      rw [List.flatMap_cons, List.map_append, h a, map_flatMap_singleton g f h t,
        List.singleton_append, List.map_cons]

theorem map_filter_comm {α β : Type} (g : α → β) (p : β → Bool) :
    ∀ (l : List α), (l.filter (fun a => p (g a))).map g = (l.map g).filter p
  | [] => rfl
  | a :: t => by
      by_cases h : p (g a)
      · simp only [List.filter_cons, List.map_cons, h, if_true]
        rw [map_filter_comm g p t]
      · simp only [List.filter_cons, List.map_cons, h, if_false]
        exact map_filter_comm g p t

theorem filter_length_le_one {α κ : Type} [DecidableEq κ] (key : α → κ) (k : κ) :
    ∀ (l : List α), ((l.map key).Nodup) → (l.filter (fun x => key x == k)).length ≤ 1
  | [], _ => by simp
  | a :: t, hnd => by
      rw [List.map_cons, List.nodup_cons] at hnd
      rw [List.filter_cons]
      by_cases h : key a = k
      · have hpa : (key a == k) = true := by simpa using h
        rw [if_pos hpa]
        have ht : t.filter (fun x => key x == k) = [] := by
          rw [List.filter_eq_nil_iff]
          intro x hx hxk
          apply hnd.1
          have hxe : key x = k := by simpa using hxk
          rw [h, ← hxe]
          exact List.mem_map_of_mem key hx
        rw [ht]
        simp
      · have hpa : ¬ (key a == k) = true := by simpa using h
        rw [if_neg hpa]
        exact filter_length_le_one key k t hnd.2

theorem eq_nil_or_singleton_of_length_le_one {α : Type} :
    ∀ (l : List α), l.length ≤ 1 → l = [] ∨ ∃ a, l = [a]
  | [], _ => Or.inl rfl
  | [a], _ => Or.inr ⟨a, rfl⟩
  | _ :: _ :: _, h => by simp at h

theorem flatMap_perm_congr {α β : Type} {f g : α → List β} :
    ∀ (l : List α), (∀ a ∈ l, List.Perm (f a) (g a)) → List.Perm (l.flatMap f) (l.flatMap g)
  | [], _ => List.Perm.refl _
  | a :: t, h => by
      rw [List.flatMap_cons, List.flatMap_cons]
      exact List.Perm.append (h a (by simp)) (flatMap_perm_congr t (fun x hx => h x (by simp [hx])))

theorem lookup_cons_of_ne {α β : Type} [BEq α] [LawfulBEq α] {a k : α} {v : β}
    {t : List (α × β)} (h : ¬ a = k) :
    List.lookup a ((k, v) :: t) = List.lookup a t := by
  have hb : (a == k) = false := by simpa using h
  simp [List.lookup_cons, hb]

theorem lookup_cons_self {α β : Type} [BEq α] [LawfulBEq α] {a : α} {v : β}
    {t : List (α × β)} : List.lookup a ((a, v) :: t) = some v := by
  simp [List.lookup_cons]

theorem lookup_setValue {β : Type} (k : String) (v : β) (k2 : String) :
    ∀ (l : List (String × β)),
      List.lookup k2 (setValue l k v) = if k2 = k then some v else List.lookup k2 l
  | [] => by
      by_cases h : k2 = k
      · subst h; simp [setValue, lookup_cons_self]
      · simp [setValue, h, lookup_cons_of_ne h]
  | (k0, v0) :: t => by
      by_cases h0 : k0 = k
      · subst h0
        rw [setValue, if_pos rfl]
        by_cases h : k2 = k0
        · subst h; simp [lookup_cons_self]
        · simp [h, lookup_cons_of_ne h]
      · rw [setValue, if_neg h0]
        by_cases h : k2 = k0
        · subst h
          rw [lookup_cons_self, lookup_cons_self, if_neg h0]
        · rw [lookup_cons_of_ne h, lookup_cons_of_ne h, lookup_setValue k v k2 t]

theorem lookup_appendHistory {R : Type} (k : String) (v : R) (k2 : String) :
    ∀ (l : List (String × List R)),
      List.lookup k2 (appendHistory l k v) =
        if k2 = k then some ((List.lookup k l).getD [] ++ [v]) else List.lookup k2 l
  | [] => by
      by_cases h : k2 = k
      · subst h; simp [appendHistory, lookup_cons_self]
      · simp [appendHistory, h, lookup_cons_of_ne h]
  | (k0, h0) :: t => by
      by_cases hk0 : k0 = k
      · subst hk0
        rw [appendHistory, if_pos rfl]
        by_cases h : k2 = k0
        · subst h; simp [lookup_cons_self]
        · simp [h, lookup_cons_of_ne h]
      · rw [appendHistory, if_neg hk0]
        by_cases h : k2 = k0
        · subst h
          rw [lookup_cons_self, lookup_cons_self, if_neg hk0]
        · rw [lookup_cons_of_ne h, lookup_cons_of_ne h, lookup_appendHistory k v k2 t,
            lookup_cons_of_ne (fun he => absurd he.symm hk0)]

theorem mem_keys_of_lookup_eq_some {α β : Type} [BEq α] [LawfulBEq α] {a : α} {v : β} :
    ∀ {l : List (α × β)}, List.lookup a l = some v → a ∈ l.map Prod.fst
  | [], h => by simp [List.lookup] at h
  | (k, w) :: t, h => by
      by_cases hak : a = k
      · simp [hak]
      · rw [lookup_cons_of_ne hak] at h
        simp [mem_keys_of_lookup_eq_some h]

theorem lookup_eq_none_of_not_mem_keys {α β : Type} [BEq α] [LawfulBEq α] {a : α} :
    ∀ {l : List (α × β)}, a ∉ l.map Prod.fst → List.lookup a l = none
  | [], _ => rfl
  | (k, w) :: t, h => by
      have hak : ¬ a = k := by
        intro he; exact h (by simp [he])
      rw [lookup_cons_of_ne hak]
      exact lookup_eq_none_of_not_mem_keys (fun hm => h (by simp [hm]))

theorem charListLt_trans :
    ∀ (a b c : List Char), charListLt a b = true → charListLt b c = true →
      charListLt a c = true
  | [], [], _, h1, _ => by simp [charListLt] at h1
  | [], _ :: _, [], _, h2 => by simp [charListLt] at h2
  | [], _ :: _, _ :: _, _, _ => by simp [charListLt]
  | _ :: _, [], _, h1, _ => by simp [charListLt] at h1
  | _ :: _, _ :: _, [], _, h2 => by simp [charListLt] at h2
  | a :: as, b :: bs, c :: cs, h1, h2 => by
      simp only [charListLt] at h1 h2 ⊢
      by_cases hab : a.toNat < b.toNat
      · by_cases hbc : b.toNat < c.toNat
        · rw [if_pos (by omega)]
        · rw [if_pos hab] at h1
          rw [if_neg hbc] at h2
          by_cases hcb : c.toNat < b.toNat
          · rw [if_pos hcb] at h2
            exact absurd h2 (by simp)
          · rw [if_neg hcb] at h2
            rw [if_pos (by omega)]
      · rw [if_neg hab] at h1
        by_cases hba : b.toNat < a.toNat
        · rw [if_pos hba] at h1
          exact absurd h1 (by simp)
        · rw [if_neg hba] at h1
          by_cases hbc : b.toNat < c.toNat
          · rw [if_pos (by omega)]
          · rw [if_neg hbc] at h2
            by_cases hcb : c.toNat < b.toNat
            · rw [if_pos hcb] at h2
              exact absurd h2 (by simp)
            · rw [if_neg hcb] at h2
              rw [if_neg (by omega), if_neg (by omega)]
              exact charListLt_trans as bs cs h1 h2

theorem charListLt_total :
    ∀ (a b : List Char), a = b ∨ charListLt a b = true ∨ charListLt b a = true
  | [], [] => Or.inl rfl
  | [], _ :: _ => Or.inr (Or.inl (by simp [charListLt]))
  | _ :: _, [] => Or.inr (Or.inr (by simp [charListLt]))
  | a :: as, b :: bs => by
      by_cases hab : a.toNat < b.toNat
      · exact Or.inr (Or.inl (by simp only [charListLt]; rw [if_pos hab]))
      · by_cases hba : b.toNat < a.toNat
        · exact Or.inr (Or.inr (by simp only [charListLt]; rw [if_pos hba]))
        · have hchar : a = b := by
            have hn : a.toNat = b.toNat := by omega
            have := congrArg Char.ofNat hn
            rwa [Char.ofNat_toNat, Char.ofNat_toNat] at this
          subst hchar
          rcases charListLt_total as bs with h | h | h
          · exact Or.inl (by rw [h])
          · exact Or.inr (Or.inl (by
              simp only [charListLt]
              rw [if_neg hab, if_neg hab]
              exact h))
          · exact Or.inr (Or.inr (by
              simp only [charListLt]
              rw [if_neg hab, if_neg hab]
              exact h))

theorem strLtB_trans (a b c : String) (h1 : strLtB a b = true) (h2 : strLtB b c = true) :
    strLtB a c = true :=
  charListLt_trans a.toList b.toList c.toList h1 h2

theorem strLtB_total (a b : String) (h : a ≠ b) :
    strLtB a b = true ∨ strLtB b a = true := by
  rcases charListLt_total a.toList b.toList with he | hlt | hlt
  · exfalso
    apply h
    cases a with
    | mk da =>
      cases b with
      | mk db =>
        have : da = db := by simpa [String.toList] using he
        rw [this]
  · exact Or.inl hlt
  · exact Or.inr hlt

theorem raceKeyLtB_trans (a b c : Int × String)
    (h1 : raceKeyLtB a b = true) (h2 : raceKeyLtB b c = true) :
    raceKeyLtB a c = true := by
  unfold raceKeyLtB at h1 h2 ⊢
  by_cases hab : a.1 < b.1
  · by_cases hbc : b.1 < c.1
    · rw [if_pos (by omega)]
    · rw [if_neg hbc] at h2
      by_cases hcb : c.1 < b.1
      · rw [if_pos hcb] at h2; exact absurd h2 (by simp)
      · rw [if_pos (by omega)]
  · rw [if_neg hab] at h1
    by_cases hba : b.1 < a.1
    · rw [if_pos hba] at h1; exact absurd h1 (by simp)
    · rw [if_neg hba] at h1
      by_cases hbc : b.1 < c.1
      · rw [if_pos (by omega)]
      · rw [if_neg hbc] at h2
        by_cases hcb : c.1 < b.1
        · rw [if_pos hcb] at h2; exact absurd h2 (by simp)
        · rw [if_neg hcb] at h2
          rw [if_neg (by omega), if_neg (by omega)]
          exact strLtB_trans _ _ _ h1 h2

theorem raceKeyLtB_total (a b : Int × String) (h : a ≠ b) :
    raceKeyLtB a b = true ∨ raceKeyLtB b a = true := by
  unfold raceKeyLtB
  by_cases hab : a.1 < b.1
  · exact Or.inl (by rw [if_pos hab])
  · by_cases hba : b.1 < a.1
    · exact Or.inr (by rw [if_pos hba])
    · have hfst : a.1 = b.1 := by omega
      have hsnd : a.2 ≠ b.2 := by
        intro hs
        exact h (Prod.ext hfst hs)
      rcases strLtB_total a.2 b.2 hsnd with hlt | hlt
      · exact Or.inl (by rw [if_neg hab, if_neg hba]; exact hlt)
      · exact Or.inr (by rw [if_neg hba, if_neg hab]; exact hlt)

theorem mem_insertSortedKey {κ : Type} [DecidableEq κ] (lt : κ → κ → Bool) (k a : κ) :
    ∀ (l : List κ), a ∈ insertSortedKey lt k l ↔ a = k ∨ a ∈ l
  | [] => by simp [insertSortedKey]
  | k0 :: t => by
      rw [insertSortedKey]
      by_cases h1 : k = k0
      · subst h1
        rw [if_pos rfl]
        constructor
        · intro h; exact Or.inr h
        · rintro (rfl | h)
          · simp
          · exact h
      · rw [if_neg h1]
        by_cases h2 : lt k k0 = true
        · rw [if_pos h2]
          simp [List.mem_cons, or_comm, or_left_comm]
        · rw [if_neg h2]
          simp only [List.mem_cons, mem_insertSortedKey lt k a t]
          tauto

theorem sortedKeys_mem_aux {α κ : Type} [DecidableEq κ] (lt : κ → κ → Bool)
    (key : α → κ) (a : κ) :
    ∀ (rows : List α) (acc : List κ),
      a ∈ rows.foldl (fun acc r => insertSortedKey lt (key r) acc) acc ↔
        a ∈ acc ∨ a ∈ rows.map key
  | [], acc => by simp
  | r :: t, acc => by
      rw [List.foldl_cons, sortedKeys_mem_aux lt key a t, mem_insertSortedKey]
      simp [List.mem_cons]
      tauto

theorem mem_sortedKeys {α κ : Type} [DecidableEq κ] (lt : κ → κ → Bool)
    (key : α → κ) (a : κ) (rows : List α) :
    a ∈ sortedKeys lt key rows ↔ a ∈ rows.map key := by
  rw [sortedKeys, sortedKeys_mem_aux]
  simp

theorem insertSortedKey_pairwise {κ : Type} [DecidableEq κ] (lt : κ → κ → Bool)
    (htr : ∀ a b c, lt a b = true → lt b c = true → lt a c = true)
    (htot : ∀ a b, a ≠ b → lt a b = true ∨ lt b a = true) (k : κ) :
    ∀ (l : List κ), l.Pairwise (fun a b => lt a b = true) →
      (insertSortedKey lt k l).Pairwise (fun a b => lt a b = true)
  | [], _ => by simp [insertSortedKey]
  | k0 :: t, h => by
      rw [insertSortedKey]
      by_cases h1 : k = k0
      · rw [if_pos h1]; exact h
      · rw [if_neg h1]
        rcases List.pairwise_cons.mp h with ⟨hk0, ht⟩
        by_cases h2 : lt k k0 = true
        · rw [if_pos h2]
          refine List.pairwise_cons.mpr ⟨?_, h⟩
          intro b hb
          rcases List.mem_cons.mp hb with rfl | hb2
          · exact h2
          · exact htr k k0 b h2 (hk0 b hb2)
        · rw [if_neg h2]
          refine List.pairwise_cons.mpr ⟨?_, insertSortedKey_pairwise lt htr htot k t ht⟩
          intro b hb
          rcases (mem_insertSortedKey lt k b t).mp hb with rfl | hb2
          · rcases htot k0 b (fun he => h1 he.symm) with hx | hx
            · exact hx
            · exact absurd hx h2
          · exact hk0 b hb2

theorem sortedKeys_pairwise_aux {α κ : Type} [DecidableEq κ] (lt : κ → κ → Bool)
    (htr : ∀ a b c, lt a b = true → lt b c = true → lt a c = true)
    (htot : ∀ a b, a ≠ b → lt a b = true ∨ lt b a = true) (key : α → κ) :
    ∀ (rows : List α) (acc : List κ), acc.Pairwise (fun a b => lt a b = true) →
      (rows.foldl (fun acc r => insertSortedKey lt (key r) acc) acc).Pairwise
        (fun a b => lt a b = true)
  | [], _, hacc => hacc
  | r :: t, acc, hacc => by
      rw [List.foldl_cons]
      exact sortedKeys_pairwise_aux lt htr htot key t _
        (insertSortedKey_pairwise lt htr htot (key r) acc hacc)

theorem sortedKeys_pairwise {α κ : Type} [DecidableEq κ] (lt : κ → κ → Bool)
    (htr : ∀ a b c, lt a b = true → lt b c = true → lt a c = true)
    (htot : ∀ a b, a ≠ b → lt a b = true ∨ lt b a = true) (key : α → κ)
    (rows : List α) :
    (sortedKeys lt key rows).Pairwise (fun a b => lt a b = true) :=
  sortedKeys_pairwise_aux lt htr htot key rows [] (List.Pairwise.nil)

theorem flatMap_collapse {κ β : Type} [DecidableEq κ] (f : κ → List β) (k0 : κ) :
    ∀ (ks : List κ), ks.Nodup → (∀ k ∈ ks, k ≠ k0 → f k = []) →
      ks.flatMap f = if k0 ∈ ks then f k0 else []
  | [], _, _ => by simp
  | k :: t, hnd, h => by
      rw [List.flatMap_cons]
      by_cases hk : k = k0
      · subst hk
        have ht : t.flatMap f = [] := by
          apply flatMap_eq_nil_of
          intro k2 hk2
          refine h k2 (by simp [hk2]) ?_
          rintro rfl
          exact (List.nodup_cons.mp hnd).1 hk2
        simp [ht]
      · rw [h k (by simp) hk, flatMap_collapse f k0 t (List.nodup_cons.mp hnd).2
          (fun k2 hk2 => h k2 (by simp [hk2]))]
        have : (k0 ∈ k :: t) = (k0 ∈ t) := by
          simp [List.mem_cons]
          intro he
          exact absurd he.symm hk
        rw [List.nil_append]
        by_cases hmem : k0 ∈ t
        · simp [hmem, List.mem_cons, hmem]
        · have : k0 ∉ k :: t := by
            simp [List.mem_cons, hmem]
            rintro rfl; exact hk rfl
          simp [hmem, this]

theorem sublist_pair_of_mem {α : Type} :
    ∀ (l : List α) (a b : α), l.Nodup → a ∈ l → b ∈ l → a ≠ b →
      [a, b].Sublist l ∨ [b, a].Sublist l
  | [], a, _, _, ha, _, _ => absurd ha (by simp)
  | x :: t, a, b, hnd, ha, hb, hne => by
      by_cases hax : a = x
      · subst hax
        have hbt : b ∈ t := by
          rcases List.mem_cons.mp hb with he | h
          · exact absurd he.symm hne
          · exact h
        exact Or.inl (List.Sublist.cons₂ a (List.singleton_sublist.mpr hbt))
      · by_cases hbx : b = x
        · subst hbx
          have hat : a ∈ t := by
            rcases List.mem_cons.mp ha with he | h
            · exact absurd he hax
            · exact h
          exact Or.inr (List.Sublist.cons₂ b (List.singleton_sublist.mpr hat))
        · have hat : a ∈ t := by
            rcases List.mem_cons.mp ha with he | h
            · exact absurd he hax
            · exact h
          have hbt : b ∈ t := by
            rcases List.mem_cons.mp hb with he | h
            · exact absurd he hbx
            · exact h
          rcases sublist_pair_of_mem t a b (List.nodup_cons.mp hnd).2 hat hbt hne with h | h
          · exact Or.inl (h.cons x)
          · exact Or.inr (h.cons x)

theorem pair_mem_racePairs :
    ∀ (l : List String) (a b : String), [a, b].Sublist l → (a, b) ∈ racePairs l
  | [], _, _, h => by simp at h
  | x :: t, a, b, h => by
      rw [racePairs, List.mem_append]
      cases h with
      | cons _ h2 =>
          exact Or.inr (pair_mem_racePairs t a b h2)
      | cons₂ _ h2 =>
          have hbt : b ∈ t := List.singleton_sublist.mp h2
          exact Or.inl (List.mem_map_of_mem _ hbt)

/-! ### ELO state lemmas -/

theorem get_rating_params {R : Type} (st : EloState R) (d : String) :
    (ELOModel.get_rating st d).1.initialRating = st.initialRating ∧
      (ELOModel.get_rating st d).1.kFactor = st.kFactor ∧
      (ELOModel.get_rating st d).1.isTrained = st.isTrained := by
  cases h : st.ratings.lookup d <;> simp [ELOModel.get_rating, h]

theorem get_rating_snd {R : Type} (st : EloState R) (d : String) :
    (ELOModel.get_rating st d).2 = ratingOf st d := by
  cases h : st.ratings.lookup d <;> simp [ELOModel.get_rating, h, ratingOf]

theorem get_rating_ratings_lookup {R : Type} (st : EloState R) (d d2 : String) :
    List.lookup d2 (ELOModel.get_rating st d).1.ratings =
      if d2 = d then some (ratingOf st d) else List.lookup d2 st.ratings := by
  cases h : st.ratings.lookup d
  · simp [ELOModel.get_rating, h, lookup_setValue, ratingOf]
  · by_cases h2 : d2 = d
    · subst h2; simp [ELOModel.get_rating, h, ratingOf]
    · simp [ELOModel.get_rating, h, h2]

theorem get_rating_history_lookup_of_none {R : Type} {st : EloState R} {d : String}
    (h : st.ratings.lookup d = none) (d2 : String) :
    List.lookup d2 (ELOModel.get_rating st d).1.ratingHistory =
      if d2 = d then some [st.initialRating] else List.lookup d2 st.ratingHistory := by
  by_cases h2 : d2 = d
  · subst h2; simp [ELOModel.get_rating, h, lookup_setValue]
  · simp [ELOModel.get_rating, h, h2, lookup_setValue]

theorem get_rating_history_of_some {R : Type} {st : EloState R} {d : String} {r : R}
    (h : st.ratings.lookup d = some r) :
    (ELOModel.get_rating st d).1.ratingHistory = st.ratingHistory := by
  simp [ELOModel.get_rating, h]

theorem ratingOf_get_rating {R : Type} (st : EloState R) (d d2 : String) :
    ratingOf (ELOModel.get_rating st d).1 d2 = ratingOf st d2 := by
  unfold ratingOf
  rw [get_rating_ratings_lookup, (get_rating_params st d).1]
  by_cases h : d2 = d
  · subst h; simp [ratingOf]
  · simp [h, ratingOf]

theorem update_ratings_lookup_self (st : EloState ℝ) (d o : String) (s : ℝ) :
    List.lookup d (ELOModel.update_ratings st d o s).ratings =
      some (ratingOf st d +
        st.kFactor * (s - ELOModel.expected_score (ratingOf st d) (ratingOf st o))) := by
  unfold ELOModel.update_ratings
  rw [lookup_setValue]
  rw [if_pos rfl]
  rw [get_rating_snd, get_rating_snd, ratingOf_get_rating,
    (get_rating_params _ _).2.1, (get_rating_params _ _).2.1]

/-! ### Claim C2 -/

/-- C2: for every input frame missing at least one of the ELO model's
required identifier columns, both train and (trained-model) predict
return an error naming a missing required column — the error message
contains the column name — and neither call proceeds. -/
theorem C2_missing_identifier_error (st : EloState ℝ) (xcols : List String)
    (x : List EloX) (y : List Int)
    (htr : st.isTrained = true)
    (hmiss : ∃ c ∈ requiredColumns, c ∉ xcols) :
    ∃ c ∈ requiredColumns, c ∉ xcols ∧
      ELOModel.train st xcols x y = .error (trainErrorMessage c) ∧
      ELOModel.predict st xcols x = .error (predictErrorMessage c) ∧
      (∃ s t, trainErrorMessage c = s ++ (c ++ t)) ∧
      (∃ s t, predictErrorMessage c = s ++ (c ++ t)) := by
  obtain ⟨c1, hc1, hnc1⟩ := hmiss
  have hsome : (requiredColumns.find? (fun c => !(xcols.contains c))).isSome = true := by
    rw [List.find?_isSome]
    exact ⟨c1, hc1, by simpa using hnc1⟩
  obtain ⟨c0, hfind⟩ := Option.isSome_iff_exists.mp hsome
  have hc0mem : c0 ∈ requiredColumns := List.mem_of_find?_eq_some hfind
  have hc0p : c0 ∉ xcols := by
    have := List.find?_some hfind
    simpa using this
  refine ⟨c0, hc0mem, hc0p, ?_, ?_,
    ⟨"ELO model requires ", _, rfl⟩, ⟨"ELO model requires ", _, rfl⟩⟩
  · unfold ELOModel.train
    rw [hfind]
  · unfold ELOModel.predict
    rw [if_neg (by simp [htr]), hfind]

/-- C2 witness: a trained model and an input frame lacking the
Abbreviation column. -/
theorem C2_missing_identifier_error_witness :
    ∃ c ∈ requiredColumns, c ∉ (["Year", "EventName", "RoundNumber"] : List String) ∧
      ELOModel.train c2state ["Year", "EventName", "RoundNumber"] [] [] =
        .error (trainErrorMessage c) ∧
      ELOModel.predict c2state ["Year", "EventName", "RoundNumber"] [] =
        .error (predictErrorMessage c) ∧
      (∃ s t, trainErrorMessage c = s ++ (c ++ t)) ∧
      (∃ s t, predictErrorMessage c = s ++ (c ++ t)) :=
  C2_missing_identifier_error c2state ["Year", "EventName", "RoundNumber"] [] []
    rfl (by decide)

/-! ### Claim C5 -/

/-- C5 counterexample: on a season whose round 1 (Spain) sorts after its
round 2 (Bahrain) alphabetically, ELOModel.train iterates the races in
(Year, EventName) order, which differs from the chronological
(Year, RoundNumber) order the claim asserts. -/
theorem C5_counterexample :
    trainRaceOrder c5rows ≠ chronoRaceOrder c5rows ∧
    trainRaceOrder c5rows = [(2024, "Bahrain"), (2024, "Spain")] ∧
    chronoRaceOrder c5rows = [(2024, "Spain"), (2024, "Bahrain")] := by decide

/-- C5 amended: train processes the races grouped by (year, event) in
(year, event-name code-point) lexicographic order — chronological in year
but alphabetical within a year — and within each race, for rows with
distinct finishing positions, every pair whose first driver has the
numerically lower position is processed with that driver as winner
(actual score 1.0, the opponent 0.0), the two updates of a pair and the
successive pairs being applied sequentially to the evolving ratings
state; each single update is newRating = rating + K * (actualScore - E)
with E the logistic expected score of the current ratings. -/
theorem C5_corrected :
    (∀ (st : EloState ℝ) (xcols : List String) (x : List EloX) (y : List Int),
        (∀ c ∈ requiredColumns, c ∈ xcols) →
        ELOModel.train st xcols x y =
          .ok { (trainRaceOrder (assignPosition x y)).foldl
                  (fun s k => processRace s ((sortEloRows (assignPosition x y)).filter
                    (fun r => eloRaceKey r == k))) st
                with isTrained := true }) ∧
    (∀ rows : List EloRow,
        (trainRaceOrder rows).Pairwise (fun a b => raceKeyLtB a b = true)) ∧
    (∀ (raceGroup : List EloRow) (a b : EloRow),
        ((raceGroup.map (fun r => r.position)).Nodup) → a ∈ raceGroup → b ∈ raceGroup →
        a.position < b.position → (a.abbr, b.abbr) ∈ processedPairs raceGroup) ∧
    (∀ (st : EloState ℝ) (d o : String) (s : ℝ),
        List.lookup d (ELOModel.update_ratings st d o s).ratings =
          some (ratingOf st d +
            st.kFactor * (s - ELOModel.expected_score (ratingOf st d) (ratingOf st o)))) := by
  refine ⟨?_, ?_, ?_, ?_⟩
  · intro st xcols x y h
    have hnone : requiredColumns.find? (fun c => !(xcols.contains c)) = none := by
      rw [List.find?_eq_none]
      intro c hc
      simp [h c hc]
    unfold ELOModel.train
    rw [hnone]
  · intro rows
    exact sortedKeys_pairwise raceKeyLtB raceKeyLtB_trans raceKeyLtB_total eloRaceKey _
  · intro raceGroup a b hpos ha hb hlt
    have hperm := List.perm_insertionSort posLe raceGroup
    have hnd : raceGroup.Nodup := hpos.of_map
    have hsnd : (List.insertionSort posLe raceGroup).Nodup := hperm.nodup_iff.mpr hnd
    have has : a ∈ List.insertionSort posLe raceGroup := hperm.mem_iff.mpr ha
    have hbs : b ∈ List.insertionSort posLe raceGroup := hperm.mem_iff.mpr hb
    have hsorted := List.sorted_insertionSort posLe raceGroup
    have hne : a ≠ b := by
      intro he
      rw [he] at hlt
      omega
    rcases sublist_pair_of_mem _ a b hsnd has hbs hne with hsub | hsub
    · exact pair_mem_racePairs _ a.abbr b.abbr
        (by simpa using hsub.map (fun r => r.abbr))
    · exfalso
      have hp := List.Pairwise.sublist hsub hsorted
      have hba : posLe b a := (List.pairwise_cons.mp hp).1 a (by simp)
      unfold posLe at hba
      omega
  · intro st d o s
    exact update_ratings_lookup_self st d o s

/-- C5 witness: the amended statement instantiated on the two-race
season, its first race, and a concrete rating update. -/
theorem C5_corrected_witness :
    ELOModel.train c2state requiredColumns c5x c5y =
      .ok { (trainRaceOrder (assignPosition c5x c5y)).foldl
              (fun s k => processRace s ((sortEloRows (assignPosition c5x c5y)).filter
                (fun r => eloRaceKey r == k))) c2state
            with isTrained := true } ∧
    (trainRaceOrder c5rows).Pairwise (fun a b => raceKeyLtB a b = true) ∧
    (c5rowA.abbr, c5rowB.abbr) ∈ processedPairs c5group ∧
    List.lookup "AAA" (ELOModel.update_ratings c2state "AAA" "BBB" 1).ratings =
      some (ratingOf c2state "AAA" +
        c2state.kFactor *
          (1 - ELOModel.expected_score (ratingOf c2state "AAA") (ratingOf c2state "BBB"))) :=
  ⟨C5_corrected.1 c2state requiredColumns c5x c5y (by decide),
   C5_corrected.2.1 c5rows,
   C5_corrected.2.2.1 c5group c5rowA c5rowB (by decide) (by decide) (by decide) (by decide),
   C5_corrected.2.2.2 c2state "AAA" "BBB" 1⟩

/-! ### Prediction-loop lemmas -/

theorem lookup_append_of_none {α β : Type} [BEq α] {a : α} :
    ∀ {l1 : List (α × β)} (l2 : List (α × β)), List.lookup a l1 = none →
      List.lookup a (l1 ++ l2) = List.lookup a l2
  | [], _, _ => rfl
  | (k, v) :: t, l2, h => by
      cases hbk : a == k with
      | true => rw [List.lookup_cons, hbk] at h; exact absurd h (by simp)
      | false =>
          rw [List.lookup_cons, hbk] at h
          rw [List.cons_append, List.lookup_cons, hbk]
          exact lookup_append_of_none l2 h

theorem lookup_append_of_some {α β : Type} [BEq α] {a : α} {v : β} :
    ∀ {l1 : List (α × β)} (l2 : List (α × β)), List.lookup a l1 = some v →
      List.lookup a (l1 ++ l2) = some v
  | [], _, h => by simp [List.lookup] at h
  | (k, w) :: t, l2, h => by
      cases hbk : a == k with
      | true =>
          rw [List.lookup_cons, hbk] at h
          rw [List.cons_append, List.lookup_cons, hbk]
          exact h
      | false =>
          rw [List.lookup_cons, hbk] at h
          rw [List.cons_append, List.lookup_cons, hbk]
          exact lookup_append_of_some l2 h

theorem pairwise_strict_of_sorted_nodup {R : Type} [LinearOrder R]
    (s : List (String × R)) (hs : List.Pairwise ratingGe s)
    (hnd : (s.map Prod.snd).Nodup) :
    List.Pairwise (fun a b : String × R => b.2 < a.2) s := by
  have hne : List.Pairwise (fun a b : String × R => a.2 ≠ b.2) s :=
    List.pairwise_map.mp hnd
  exact (hs.and hne).imp (fun h => lt_of_le_of_ne h.1 (fun he => h.2 he.symm))

theorem pmgAux_rank {R : Type} [LinearOrder R] :
    ∀ (s : List (String × R)) (n : Nat) (d : String) (r : R),
      List.Pairwise (fun a b : String × R => b.2 < a.2) s → (d, r) ∈ s →
      (s.map Prod.fst).Nodup →
      List.lookup d (((List.enumFrom n s).map (fun p => (p.2.1, p.1 + 1))).reverse) =
        some (n + 1 + s.countP (fun p => decide (r < p.2)))
  | [], _, _, _, _, hmem, _ => absurd hmem (by simp)
  | (d0, r0) :: t, n, d, r, hpw, hmem, hnd => by
      rw [List.enumFrom_cons, List.map_cons, List.reverse_cons]
      have hkeys : (((List.enumFrom (n + 1) t).map (fun p => (p.2.1, p.1 + 1))).reverse).map
          Prod.fst = (t.map Prod.fst).reverse := by
        rw [List.map_reverse, List.map_map]
        have : ((fun (p : String × Nat) => p.1) ∘ fun (p : Nat × String × R) => (p.2.1, p.1 + 1))
            = Prod.fst ∘ Prod.snd := rfl
        rw [this, ← List.map_map, List.enumFrom_map_snd]
      rcases List.mem_cons.mp hmem with heq | hmem2
      · have hd : d = d0 := congrArg Prod.fst heq
        have hr : r = r0 := congrArg Prod.snd heq
        subst hd; subst hr
        have hnone : List.lookup d (((List.enumFrom (n + 1) t).map
            (fun p => (p.2.1, p.1 + 1))).reverse) = none := by
          apply lookup_eq_none_of_not_mem_keys
          rw [hkeys, List.mem_reverse]
          rw [List.map_cons, List.nodup_cons] at hnd
          exact hnd.1
        rw [lookup_append_of_none _ hnone, lookup_cons_self]
        have hzero : t.countP (fun p => decide (r < p.2)) = 0 := by
          rw [List.countP_eq_zero]
          intro p hp
          have := (List.pairwise_cons.mp hpw).1 p hp
          simp only [decide_eq_true_eq]
          exact fun hlt => absurd this (not_lt.mpr (le_of_lt hlt))
        rw [List.countP_cons]
        simp [hzero]
      · have hdne : ¬ d = d0 := by
          intro he
          rw [List.map_cons, List.nodup_cons] at hnd
          exact hnd.1 (List.mem_map.mpr ⟨(d, r), hmem2, he⟩)
        have hih := pmgAux_rank t (n + 1) d r (List.pairwise_cons.mp hpw).2 hmem2
          (by rw [List.map_cons, List.nodup_cons] at hnd; exact hnd.2)
        rw [lookup_append_of_some _ hih]
        have hlt : r < r0 := (List.pairwise_cons.mp hpw).1 (d, r) hmem2
        rw [List.countP_cons]
        simp only [decide_eq_true_eq, hlt, if_true]
        congr 1
        omega

theorem positionMapGet_sorted_rank {R : Type} [LinearOrder R]
    (s : List (String × R)) (d : String) (r : R)
    (hpw : List.Pairwise (fun a b : String × R => b.2 < a.2) s) (hmem : (d, r) ∈ s)
    (hnd : (s.map Prod.fst).Nodup) :
    positionMapGet s d = 1 + s.countP (fun p => decide (r < p.2)) := by
  unfold positionMapGet
  have henum : s.enum = List.enumFrom 0 s := rfl
  rw [henum, pmgAux_rank s 0 d r hpw hmem hnd]

theorem collectRatings_params {R : Type} :
    ∀ (ds : List String) (st : EloState R),
      (collectRatings st ds).1.initialRating = st.initialRating ∧
      (collectRatings st ds).1.kFactor = st.kFactor ∧
      (collectRatings st ds).1.isTrained = st.isTrained
  | [], _ => ⟨rfl, rfl, rfl⟩
  | d :: ds, st => by
      have h1 := get_rating_params st d
      have h2 := collectRatings_params ds (ELOModel.get_rating st d).1
      simp only [collectRatings]
      exact ⟨h2.1.trans h1.1, h2.2.1.trans h1.2.1, h2.2.2.trans h1.2.2⟩

theorem ratingOf_collectRatings {R : Type} :
    ∀ (ds : List String) (st : EloState R) (d2 : String),
      ratingOf (collectRatings st ds).1 d2 = ratingOf st d2
  | [], _, _ => rfl
  | d :: ds, st, d2 => by
      simp only [collectRatings]
      rw [ratingOf_collectRatings ds _ d2, ratingOf_get_rating]

theorem collectRatings_snd {R : Type} :
    ∀ (ds : List String) (st : EloState R),
      (collectRatings st ds).2 = ds.map (fun d => (d, ratingOf st d))
  | [], _ => rfl
  | d :: ds, st => by
      simp only [collectRatings, List.map_cons]
      rw [get_rating_snd, collectRatings_snd ds _]
      congr 1
      simp only [ratingOf_get_rating]

theorem collectRatings_lookup_of_some {R : Type} :
    ∀ (ds : List String) (st : EloState R) (d2 : String) (r : R),
      List.lookup d2 st.ratings = some r →
      List.lookup d2 (collectRatings st ds).1.ratings = some r ∧
      List.lookup d2 (collectRatings st ds).1.ratingHistory =
        List.lookup d2 st.ratingHistory
  | [], _, _, _, h => ⟨h, rfl⟩
  | d :: ds, st, d2, r, h => by
      simp only [collectRatings]
      have hne2 : List.lookup d2 (ELOModel.get_rating st d).1.ratings = some r := by
        rw [get_rating_ratings_lookup]
        by_cases he : d2 = d
        · subst he
          rw [if_pos rfl]
          unfold ratingOf
          rw [h]
          rfl
        · rw [if_neg he]; exact h
      have hh : List.lookup d2 (ELOModel.get_rating st d).1.ratingHistory =
          List.lookup d2 st.ratingHistory := by
        cases hdd : st.ratings.lookup d with
        | some r0 => rw [get_rating_history_of_some hdd]
        | none =>
            rw [get_rating_history_lookup_of_none hdd]
            have he : ¬ d2 = d := by
              rintro rfl
              rw [hdd] at h
              exact absurd h (by simp)
            rw [if_neg he]
      have ih := collectRatings_lookup_of_some ds _ d2 r hne2
      exact ⟨ih.1, ih.2.trans hh⟩

theorem collectRatings_lookup_of_not_mem {R : Type} :
    ∀ (ds : List String) (st : EloState R) (d2 : String), d2 ∉ ds →
      List.lookup d2 (collectRatings st ds).1.ratings = List.lookup d2 st.ratings ∧
      List.lookup d2 (collectRatings st ds).1.ratingHistory =
        List.lookup d2 st.ratingHistory
  | [], _, _, _ => ⟨rfl, rfl⟩
  | d :: ds, st, d2, hmem => by
      have hne : d2 ≠ d := fun he => hmem (by simp [he])
      have hnm : d2 ∉ ds := fun hm => hmem (by simp [hm])
      simp only [collectRatings]
      have h1 : List.lookup d2 (ELOModel.get_rating st d).1.ratings =
          List.lookup d2 st.ratings := by
        rw [get_rating_ratings_lookup, if_neg hne]
      have h2 : List.lookup d2 (ELOModel.get_rating st d).1.ratingHistory =
          List.lookup d2 st.ratingHistory := by
        cases hdd : st.ratings.lookup d with
        | some r0 => rw [get_rating_history_of_some hdd]
        | none => rw [get_rating_history_lookup_of_none hdd, if_neg hne]
      have ih := collectRatings_lookup_of_not_mem ds (ELOModel.get_rating st d).1 d2 hnm
      exact ⟨ih.1.trans h1, ih.2.trans h2⟩

theorem collectRatings_lookup_insert {R : Type} :
    ∀ (ds : List String) (st : EloState R) (d2 : String), d2 ∈ ds →
      List.lookup d2 st.ratings = none →
      List.lookup d2 (collectRatings st ds).1.ratings = some st.initialRating ∧
      List.lookup d2 (collectRatings st ds).1.ratingHistory =
        some [st.initialRating]
  | [], _, _, h, _ => absurd h (by simp)
  | d :: ds, st, d2, hmem, hnone => by
      simp only [collectRatings]
      by_cases he : d2 = d
      · subst he
        have hr : List.lookup d2 (ELOModel.get_rating st d2).1.ratings =
            some st.initialRating := by
          rw [get_rating_ratings_lookup, if_pos rfl]
          unfold ratingOf
          rw [hnone]
          rfl
        have hh : List.lookup d2 (ELOModel.get_rating st d2).1.ratingHistory =
            some [st.initialRating] := by
          rw [get_rating_history_lookup_of_none hnone, if_pos rfl]
        have ih := collectRatings_lookup_of_some ds _ d2 _ hr
        exact ⟨ih.1, ih.2.trans hh⟩
      · have hm2 : d2 ∈ ds := by
          rcases List.mem_cons.mp hmem with h | h
          · exact absurd h he
          · exact h
        have hr2 : List.lookup d2 (ELOModel.get_rating st d).1.ratings = none := by
          rw [get_rating_ratings_lookup, if_neg he]
          exact hnone
        have ih := collectRatings_lookup_insert ds _ d2 hm2 hr2
        rw [(get_rating_params st d).1] at ih
        exact ih

theorem predictGroups_params {R : Type} [LinearOrder R] (x : List EloX) :
    ∀ (ks : List (Int × String)) (st : EloState R),
      (predictGroups x st ks).2.initialRating = st.initialRating ∧
      (predictGroups x st ks).2.kFactor = st.kFactor ∧
      (predictGroups x st ks).2.isTrained = st.isTrained
  | [], _ => ⟨rfl, rfl, rfl⟩
  | k :: ks, st => by
      have h1 := collectRatings_params
        ((x.filter (fun r => eloXKey r == k)).map (fun r => r.abbr)) st
      have h2 := predictGroups_params x ks
        (collectRatings st ((x.filter (fun r => eloXKey r == k)).map (fun r => r.abbr))).1
      simp only [predictGroups]
      exact ⟨h2.1.trans h1.1, h2.2.1.trans h1.2.1, h2.2.2.trans h1.2.2⟩

theorem predictGroups_lookup_of_some {R : Type} [LinearOrder R] (x : List EloX) :
    ∀ (ks : List (Int × String)) (st : EloState R) (d2 : String) (r : R),
      List.lookup d2 st.ratings = some r →
      List.lookup d2 (predictGroups x st ks).2.ratings = some r ∧
      List.lookup d2 (predictGroups x st ks).2.ratingHistory =
        List.lookup d2 st.ratingHistory
  | [], _, _, _, h => ⟨h, rfl⟩
  | k :: ks, st, d2, r, h => by
      simp only [predictGroups]
      have hc := collectRatings_lookup_of_some
        ((x.filter (fun r => eloXKey r == k)).map (fun r => r.abbr)) st d2 r h
      have ih := predictGroups_lookup_of_some x ks _ d2 r hc.1
      exact ⟨ih.1, ih.2.trans hc.2⟩

theorem predictGroups_lookup_of_not_mem {R : Type} [LinearOrder R] (x : List EloX) :
    ∀ (ks : List (Int × String)) (st : EloState R) (d2 : String),
      (∀ k ∈ ks, d2 ∉ (x.filter (fun r => eloXKey r == k)).map (fun r => r.abbr)) →
      List.lookup d2 (predictGroups x st ks).2.ratings = List.lookup d2 st.ratings ∧
      List.lookup d2 (predictGroups x st ks).2.ratingHistory =
        List.lookup d2 st.ratingHistory
  | [], _, _, _ => ⟨rfl, rfl⟩
  | k :: ks, st, d2, h => by
      simp only [predictGroups]
      have hc := collectRatings_lookup_of_not_mem
        ((x.filter (fun r => eloXKey r == k)).map (fun r => r.abbr)) st d2
        (h k (by simp))
      have ih := predictGroups_lookup_of_not_mem x ks
        (collectRatings st ((x.filter (fun r => eloXKey r == k)).map (fun r => r.abbr))).1 d2
        (fun k2 hk2 => h k2 (by simp [hk2]))
      exact ⟨ih.1.trans hc.1, ih.2.trans hc.2⟩

theorem predictGroups_lookup_insert {R : Type} [LinearOrder R] (x : List EloX) :
    ∀ (ks : List (Int × String)) (st : EloState R) (d2 : String) (k0 : Int × String),
      k0 ∈ ks → d2 ∈ (x.filter (fun r => eloXKey r == k0)).map (fun r => r.abbr) →
      List.lookup d2 st.ratings = none →
      List.lookup d2 (predictGroups x st ks).2.ratings = some st.initialRating ∧
      List.lookup d2 (predictGroups x st ks).2.ratingHistory =
        some [st.initialRating]
  | [], _, _, _, hk, _, _ => absurd hk (by simp)
  | k :: ks, st, d2, k0, hk, hd, hnone => by
      simp only [predictGroups]
      by_cases hmem : d2 ∈ (x.filter (fun r => eloXKey r == k)).map (fun r => r.abbr)
      · have hc := collectRatings_lookup_insert
          ((x.filter (fun r => eloXKey r == k)).map (fun r => r.abbr)) st d2 hmem hnone
        have ih := predictGroups_lookup_of_some x ks _ d2 _ hc.1
        exact ⟨ih.1, ih.2.trans hc.2⟩
      · have hc := collectRatings_lookup_of_not_mem
          ((x.filter (fun r => eloXKey r == k)).map (fun r => r.abbr)) st d2 hmem
        have hk2 : k0 ∈ ks := by
          rcases List.mem_cons.mp hk with he | h
          · subst he; exact absurd hd hmem
          · exact h
        have ih := predictGroups_lookup_insert x ks _ d2 k0 hk2 hd
          (hc.1.trans hnone)
        rw [(collectRatings_params _ st).1] at ih
        exact ih

theorem predictGroups_preds {R : Type} [LinearOrder R] (x : List EloX) :
    ∀ (ks : List (Int × String)) (st : EloState R),
      (predictGroups x st ks).1 =
        ks.flatMap (fun k =>
          ((x.filter (fun r => eloXKey r == k)).map (fun r => r.abbr)).map
            (positionMapGet (List.insertionSort ratingGe
              (((x.filter (fun r => eloXKey r == k)).map (fun r => r.abbr)).map
                (fun d => (d, ratingOf st d))))))
  | [], _ => rfl
  | k :: ks, st => by
      simp only [predictGroups, List.flatMap_cons]
      rw [collectRatings_snd, predictGroups_preds x ks _]
      congr 1
      apply flatMap_congr_mem
      intro k2 _
      simp only [ratingOf_collectRatings]

theorem mem_rankings_keys {R : Type} [LinearOrder R] (st : EloState R) (d : String)
    (h : d ∈ st.ratings.map Prod.fst) :
    d ∈ (ELOModel.get_current_rankings st).map (fun p => p.1) := by
  unfold ELOModel.get_current_rankings
  rw [List.map_map]
  have hcomp : ((fun p : String × R × Nat => p.1) ∘
      (fun p : Nat × String × R => (p.2.1, p.2.2, p.1 + 1)))
      = Prod.fst ∘ (Prod.snd : Nat × String × R → String × R) := rfl
  rw [hcomp, ← List.map_map, List.enum_map_snd]
  exact ((List.perm_insertionSort ratingGe st.ratings).map Prod.fst).mem_iff.mpr h

/-! ### Claim C4: counterexample -/

/-- C4 counterexample: predicting a race containing the never-trained
driver NEW next to VER (rating 1600) assigns NEW position 2 — NEW is
ranked at the freshly inserted initial rating 1500 — not the worst-case
default position 20 the claim asserts. -/
theorem C4_counterexample :
    List.lookup "NEW" c4state.ratings = none ∧
    xDrivers c4x = ["VER", "NEW"] ∧
    (ELOModel.predict c4state requiredColumns c4x).toOption.map (fun p => p.1) =
      some [1, 2] ∧
    (ELOModel.predict c4state requiredColumns c4x).toOption.map (fun p => p.1) ≠
      some [1, 20] := by decide

/-- C4 amended: a trained model's predict, on a frame with the required
columns whose race groups have pairwise-distinct ratings, assigns each
row of each (year, event) group the predicted position
1 + (number of drivers of the group with a strictly higher rating) —
positions 1..n by current rating descending — where the rating of a
driver never seen in training is the freshly inserted initial rating
(e.g. 1500), not the worst-case default position 20. -/
theorem C4_corrected {R : Type} [LinearOrder R] (st : EloState R) (xcols : List String)
    (x : List EloX)
    (htr : st.isTrained = true) (hcols : ∀ c ∈ requiredColumns, c ∈ xcols)
    (hdist : ∀ k ∈ sortedKeys raceKeyLtB eloXKey x,
      ((x.filter (fun r => eloXKey r == k)).map (fun r => ratingOf st r.abbr)).Nodup) :
    ELOModel.predict st xcols x =
      .ok ((sortedKeys raceKeyLtB eloXKey x).flatMap (fun k =>
        (x.filter (fun r => eloXKey r == k)).map (fun r =>
          1 + (x.filter (fun r2 => eloXKey r2 == k)).countP
                (fun r2 => decide (ratingOf st r.abbr < ratingOf st r2.abbr)))),
          (predictGroups x st (sortedKeys raceKeyLtB eloXKey x)).2) := by
  have hnone : requiredColumns.find? (fun c => !(xcols.contains c)) = none := by
    rw [List.find?_eq_none]
    intro c hc
    simp [hcols c hc]
  unfold ELOModel.predict
  rw [if_neg (by simp [htr]), hnone]
  refine congrArg Except.ok (Prod.ext ?_ rfl)
  rw [predictGroups_preds]
  apply flatMap_congr_mem
  intro k hk
  rw [List.map_map]
  apply List.map_congr_left
  intro r hr
  have hnd_r := hdist k hk
  have hdn : ((x.filter (fun r => eloXKey r == k)).map (fun r => r.abbr)).Nodup := by
    apply List.Nodup.of_map (ratingOf st)
    rw [List.map_map]
    exact hnd_r
  have hkeysfst : (((x.filter (fun r => eloXKey r == k)).map (fun r => r.abbr)).map
      (fun d => (d, ratingOf st d))).map Prod.fst =
      (x.filter (fun r => eloXKey r == k)).map (fun r => r.abbr) := by
    rw [List.map_map]
    exact List.map_id _
  have hkeyssnd : (((x.filter (fun r => eloXKey r == k)).map (fun r => r.abbr)).map
      (fun d => (d, ratingOf st d))).map Prod.snd =
      (x.filter (fun r => eloXKey r == k)).map (fun r => ratingOf st r.abbr) := by
    rw [List.map_map, List.map_map]
    rfl
  have hperm := List.perm_insertionSort ratingGe
    (((x.filter (fun r => eloXKey r == k)).map (fun r => r.abbr)).map
      (fun d => (d, ratingOf st d)))
  have hsorted := List.sorted_insertionSort ratingGe
    (((x.filter (fun r => eloXKey r == k)).map (fun r => r.abbr)).map
      (fun d => (d, ratingOf st d)))
  have hndfst : ((List.insertionSort ratingGe
      (((x.filter (fun r => eloXKey r == k)).map (fun r => r.abbr)).map
        (fun d => (d, ratingOf st d)))).map Prod.fst).Nodup := by
    rw [(hperm.map Prod.fst).nodup_iff, hkeysfst]
    exact hdn
  have hndsnd : ((List.insertionSort ratingGe
      (((x.filter (fun r => eloXKey r == k)).map (fun r => r.abbr)).map
        (fun d => (d, ratingOf st d)))).map Prod.snd).Nodup := by
    rw [(hperm.map Prod.snd).nodup_iff, hkeyssnd]
    exact hnd_r
  have hstrict := pairwise_strict_of_sorted_nodup _ hsorted hndsnd
  have hmem : (r.abbr, ratingOf st r.abbr) ∈ List.insertionSort ratingGe
      (((x.filter (fun r => eloXKey r == k)).map (fun r => r.abbr)).map
        (fun d => (d, ratingOf st d))) :=
    hperm.mem_iff.mpr (List.mem_map_of_mem _ (List.mem_map_of_mem _ hr))
  rw [Function.comp_apply, positionMapGet_sorted_rank _ r.abbr (ratingOf st r.abbr)
    hstrict hmem hndfst]
  congr 1
  rw [List.Perm.countP_eq _ hperm, List.countP_map, List.countP_map]
  rfl

/-- C4 witness: the amended characterisation instantiated on the
one-known-driver state and the race containing the unseen driver NEW. -/
theorem C4_corrected_witness :
    ELOModel.predict c4state requiredColumns c4x =
      .ok ((sortedKeys raceKeyLtB eloXKey c4x).flatMap (fun k =>
        (c4x.filter (fun r => eloXKey r == k)).map (fun r =>
          1 + (c4x.filter (fun r2 => eloXKey r2 == k)).countP
                (fun r2 => decide (ratingOf c4state r.abbr < ratingOf c4state r2.abbr)))),
          (predictGroups c4x c4state (sortedKeys raceKeyLtB eloXKey c4x)).2) :=
  C4_corrected c4state requiredColumns c4x rfl (by decide) (by decide)

/-! ### Claim C10 -/

/-- C10: predict is not read-only on model state — it returns
successfully on a trained model with the required columns, keeping every
existing rating and its history unchanged, inserting every input driver
that has no rating at the initial rating with history [initial], leaving
drivers outside the input untouched, and making every input driver
(trained on or not) appear in a subsequent get_current_rankings. -/
theorem C10_predict_inserts {R : Type} [LinearOrder R] (st : EloState R)
    (xcols : List String) (x : List EloX)
    (htr : st.isTrained = true) (hcols : ∀ c ∈ requiredColumns, c ∈ xcols) :
    ELOModel.predict st xcols x =
      .ok ((predictGroups x st (sortedKeys raceKeyLtB eloXKey x)).1,
        (predictGroups x st (sortedKeys raceKeyLtB eloXKey x)).2) ∧
    (∀ d r, List.lookup d st.ratings = some r →
      List.lookup d (predictGroups x st (sortedKeys raceKeyLtB eloXKey x)).2.ratings =
        some r ∧
      List.lookup d (predictGroups x st (sortedKeys raceKeyLtB eloXKey x)).2.ratingHistory =
        List.lookup d st.ratingHistory) ∧
    (∀ d, d ∈ xDrivers x → List.lookup d st.ratings = none →
      List.lookup d (predictGroups x st (sortedKeys raceKeyLtB eloXKey x)).2.ratings =
        some st.initialRating ∧
      List.lookup d (predictGroups x st (sortedKeys raceKeyLtB eloXKey x)).2.ratingHistory =
        some [st.initialRating]) ∧
    (∀ d, d ∉ xDrivers x →
      List.lookup d (predictGroups x st (sortedKeys raceKeyLtB eloXKey x)).2.ratings =
        List.lookup d st.ratings ∧
      List.lookup d (predictGroups x st (sortedKeys raceKeyLtB eloXKey x)).2.ratingHistory =
        List.lookup d st.ratingHistory) ∧
    (∀ d, d ∈ xDrivers x →
      d ∈ (ELOModel.get_current_rankings
        (predictGroups x st (sortedKeys raceKeyLtB eloXKey x)).2).map (fun p => p.1)) := by
  have hnone : requiredColumns.find? (fun c => !(xcols.contains c)) = none := by
    rw [List.find?_eq_none]
    intro c hc
    simp [hcols c hc]
  refine ⟨?_, ?_, ?_, ?_, ?_⟩
  · unfold ELOModel.predict
    rw [if_neg (by simp [htr]), hnone]
  · intro d r h
    exact predictGroups_lookup_of_some x _ st d r h
  · intro d hd hnonr
    rcases List.mem_map.mp hd with ⟨r0, hr0, habbr⟩
    have hk : eloXKey r0 ∈ sortedKeys raceKeyLtB eloXKey x :=
      (mem_sortedKeys _ _ _ _).mpr (List.mem_map_of_mem _ hr0)
    have hdg : d ∈ (x.filter (fun r => eloXKey r == eloXKey r0)).map
        (fun r => r.abbr) :=
      List.mem_map.mpr ⟨r0, List.mem_filter.mpr ⟨hr0, by simp⟩, habbr⟩
    exact predictGroups_lookup_insert x _ st d (eloXKey r0) hk hdg hnonr
  · intro d hd
    apply predictGroups_lookup_of_not_mem x _ st d
    intro k _ hmem
    apply hd
    rcases List.mem_map.mp hmem with ⟨r0, hr0, habbr⟩
    exact List.mem_map.mpr ⟨r0, (List.mem_filter.mp hr0).1, habbr⟩
  · intro d hd
    apply mem_rankings_keys
    cases h : List.lookup d st.ratings with
    | some r =>
        exact mem_keys_of_lookup_eq_some (predictGroups_lookup_of_some x _ st d r h).1
    | none =>
        rcases List.mem_map.mp hd with ⟨r0, hr0, habbr⟩
        have hk : eloXKey r0 ∈ sortedKeys raceKeyLtB eloXKey x :=
          (mem_sortedKeys _ _ _ _).mpr (List.mem_map_of_mem _ hr0)
        have hdg : d ∈ (x.filter (fun r => eloXKey r == eloXKey r0)).map
            (fun r => r.abbr) :=
          List.mem_map.mpr ⟨r0, List.mem_filter.mpr ⟨hr0, by simp⟩, habbr⟩
        exact mem_keys_of_lookup_eq_some
          (predictGroups_lookup_insert x _ st d (eloXKey r0) hk hdg h).1

/-- C10 witness: the frame effect of predict instantiated on the
one-known-driver state and the race containing the unseen driver NEW. -/
theorem C10_predict_inserts_witness :
    ELOModel.predict c4state requiredColumns c4x =
      .ok ((predictGroups c4x c4state (sortedKeys raceKeyLtB eloXKey c4x)).1,
        (predictGroups c4x c4state (sortedKeys raceKeyLtB eloXKey c4x)).2) ∧
    (List.lookup "VER"
        (predictGroups c4x c4state (sortedKeys raceKeyLtB eloXKey c4x)).2.ratings =
      some 1600 ∧
      List.lookup "VER"
        (predictGroups c4x c4state (sortedKeys raceKeyLtB eloXKey c4x)).2.ratingHistory =
      List.lookup "VER" c4state.ratingHistory) ∧
    (List.lookup "NEW"
        (predictGroups c4x c4state (sortedKeys raceKeyLtB eloXKey c4x)).2.ratings =
      some c4state.initialRating ∧
      List.lookup "NEW"
        (predictGroups c4x c4state (sortedKeys raceKeyLtB eloXKey c4x)).2.ratingHistory =
      some [c4state.initialRating]) ∧
    (List.lookup "BOT"
        (predictGroups c4x c4state (sortedKeys raceKeyLtB eloXKey c4x)).2.ratings =
      List.lookup "BOT" c4state.ratings) ∧
    ("NEW" ∈ (ELOModel.get_current_rankings
        (predictGroups c4x c4state (sortedKeys raceKeyLtB eloXKey c4x)).2).map
      (fun p => p.1)) :=
  ⟨(C10_predict_inserts c4state requiredColumns c4x rfl (by decide)).1,
   (C10_predict_inserts c4state requiredColumns c4x rfl (by decide)).2.1 "VER" 1600
     (by decide),
   (C10_predict_inserts c4state requiredColumns c4x rfl (by decide)).2.2.1 "NEW"
     (by decide) (by decide),
   ((C10_predict_inserts c4state requiredColumns c4x rfl (by decide)).2.2.2.1 "BOT"
     (by decide)).1,
   (C10_predict_inserts c4state requiredColumns c4x rfl (by decide)).2.2.2.2 "NEW"
     (by decide)⟩

/-! ### Claim C3 -/

/-- C3 counterexample: with the ELO required columns, an X lacking all of
them, and a meta frame containing only Abbreviation, prepare_input
returns a partially merged frame that still lacks the required Year
column, instead of failing loudly. -/
theorem C3_counterexample :
    (BaseF1Model.prepare_input "ELO" requiredColumns
        { cols := ["feat1"], nrows := 2 }
        (some { cols := ["Abbreviation"], nrows := 2 })).toOption =
      some { cols := ["feat1", "Abbreviation"], nrows := 2 } ∧
    "Year" ∈ requiredColumns ∧
    "Year" ∉ (["feat1", "Abbreviation"] : List String) := by decide

/-- C3 amended: prepare_input returns X unchanged when no required
column is missing; when some are missing it raises if meta is absent,
empty, or contains none of the missing columns; but when meta contains
at least one (possibly not all) of the missing columns it silently
returns X extended with exactly the missing columns present in meta — a
partial merge whose result may still lack required columns. -/
theorem C3_corrected (name : String) (required : List String) (x : PDataFrame)
    (meta : Option PDataFrame) :
    (required.filter (fun c => !(x.cols.contains c)) = [] →
      BaseF1Model.prepare_input name required x meta = .ok x) ∧
    (required.filter (fun c => !(x.cols.contains c)) ≠ [] → meta = none →
      BaseF1Model.prepare_input name required x meta =
        .error (name ++ (" requires columns " ++
          (missingColumnsText (required.filter (fun c => !(x.cols.contains c))) ++
            " but meta is empty")))) ∧
    (∀ m, meta = some m → m.isEmptyDf = true →
      required.filter (fun c => !(x.cols.contains c)) ≠ [] →
      BaseF1Model.prepare_input name required x meta =
        .error (name ++ (" requires columns " ++
          (missingColumnsText (required.filter (fun c => !(x.cols.contains c))) ++
            " but meta is empty")))) ∧
    (∀ m, meta = some m → m.isEmptyDf = false →
      required.filter (fun c => !(x.cols.contains c)) ≠ [] →
      (((required.filter (fun c => !(x.cols.contains c))).filter
          (fun c => m.cols.contains c) ≠ [] →
        BaseF1Model.prepare_input name required x meta =
          .ok { cols := x.cols ++ (required.filter (fun c => !(x.cols.contains c))).filter
                  (fun c => m.cols.contains c),
                nrows := max x.nrows m.nrows }) ∧
      ((required.filter (fun c => !(x.cols.contains c))).filter
          (fun c => m.cols.contains c) = [] →
        BaseF1Model.prepare_input name required x meta =
          .error (name ++ (" requires columns " ++
            (missingColumnsText (required.filter (fun c => !(x.cols.contains c))) ++
              " but they are not in X or meta")))))) := by
  refine ⟨?_, ?_, ?_, ?_⟩
  · intro h
    unfold BaseF1Model.prepare_input
    by_cases hreq : required.isEmpty
    · rw [if_pos hreq]
    · rw [if_neg hreq, if_pos (by rw [List.isEmpty_iff]; exact h)]
  · intro h hm
    subst hm
    have hreq : ¬ required.isEmpty = true := by
      rw [List.isEmpty_iff]
      rintro rfl
      exact h rfl
    unfold BaseF1Model.prepare_input
    rw [if_neg hreq, if_neg (by rw [List.isEmpty_iff]; exact h)]
  · intro m hm hempty h
    subst hm
    have hreq : ¬ required.isEmpty = true := by
      rw [List.isEmpty_iff]
      rintro rfl
      exact h rfl
    unfold BaseF1Model.prepare_input
    rw [if_neg hreq, if_neg (by rw [List.isEmpty_iff]; exact h)]
    dsimp only
    rw [if_pos hempty]
  · intro m hm hempty h
    subst hm
    have hreq : ¬ required.isEmpty = true := by
      rw [List.isEmpty_iff]
      rintro rfl
      exact h rfl
    constructor
    · intro hav
      unfold BaseF1Model.prepare_input
      rw [if_neg hreq, if_neg (by rw [List.isEmpty_iff]; exact h)]
      dsimp only
      rw [if_neg (by rw [hempty]; simp),
        if_neg (by rw [List.isEmpty_iff]; exact hav)]
    · intro hav
      unfold BaseF1Model.prepare_input
      rw [if_neg hreq, if_neg (by rw [List.isEmpty_iff]; exact h)]
      dsimp only
      rw [if_neg (by rw [hempty]; simp),
        if_pos (by rw [List.isEmpty_iff]; exact hav)]

/-- C3 witness: the partial-merge branch of the amended statement
instantiated on the counterexample frames. -/
theorem C3_corrected_witness :
    BaseF1Model.prepare_input "ELO" requiredColumns
        { cols := ["feat1"], nrows := 2 } (some { cols := ["Abbreviation"], nrows := 2 }) =
      .ok { cols := ["feat1"] ++ (requiredColumns.filter
              (fun c => !((["feat1"] : List String).contains c))).filter
              (fun c => (["Abbreviation"] : List String).contains c),
            nrows := max 2 2 } :=
  (((C3_corrected "ELO" requiredColumns { cols := ["feat1"], nrows := 2 }
      (some { cols := ["Abbreviation"], nrows := 2 })).2.2.2
    { cols := ["Abbreviation"], nrows := 2 } rfl (by decide) (by decide)).1 (by decide))

/-! ### Claim C1 -/

/-- C1 (code bug): the run_store_state call in src/ml/pipeline.py passes
a metadata_cols keyword that prepare_training_data does not accept (a
TypeError at the call site), the unit tests unpack six return values
while the function returns four, and every column of the returned
X_train/X_test is outside the identifier/metadata exclusion list — so no
returned component is a metadata side-table of identifier columns.  The
claim describes the intended behaviour (shared by caller, tests and
spec); the feature-store code does not implement it. -/
theorem C1_code_bug :
    runStoreStatePrepareCall =
      .error ("TypeError: " ++ ("prepare_training_data" ++
        ("() got an unexpected keyword argument " ++ "metadata_cols"))) ∧
    pyUnpackCheck prepareReturnCount testsExpectedReturnCount =
      .error "ValueError: tuple unpack size mismatch" ∧
    (∀ (features : FTable) (targetCol : String) (testSize : ℚ),
      (((FeatureStore.prepare_training_data features targetCol testSize).1.cols.all
        (fun c => !((excludedColumns targetCol).contains c))) = true) ∧
      (((FeatureStore.prepare_training_data features targetCol testSize).2.1.cols.all
        (fun c => !((excludedColumns targetCol).contains c))) = true)) := by
  refine ⟨rfl, rfl, ?_⟩
  intro features targetCol testSize
  have hcols : ∀ t : FTable × FTable × List PValue × List PValue,
      t = FeatureStore.prepare_training_data features targetCol testSize →
      t.1.cols = featureColumns features targetCol ∧
      t.2.1.cols = featureColumns features targetCol := by
    intro t ht
    rw [ht]
    exact ⟨rfl, rfl⟩
  have h1 := (hcols _ rfl).1
  have h2 := (hcols _ rfl).2
  rw [h1, h2]
  have hall : (featureColumns features targetCol).all
      (fun c => !((excludedColumns targetCol).contains c)) = true := by
    rw [List.all_eq_true]
    intro c hc
    exact (List.mem_filter.mp hc).2
  exact ⟨hall, hall⟩

/-! ### Claim C8 -/

theorem splitIndex_two_half : splitIndex 2 (1 / 2) = 1 := by
  unfold splitIndex
  norm_num

theorem c8features_clean : cleanRows c8features "Position" = [c8rowLate, c8rowEarly] := by
  decide

theorem c8sorted_clean : cleanRows c8sorted "Position" = [c8rowEarly, c8rowLate] := by
  decide

theorem c8features_train :
    trainSplitRows c8features "Position" (1 / 2) = [c8rowLate] := by
  unfold trainSplitRows
  rw [c8features_clean]
  have hlen : ([c8rowLate, c8rowEarly] : List SRow).length = 2 := rfl
  rw [hlen, splitIndex_two_half]
  rfl

theorem c8features_test :
    testSplitRows c8features "Position" (1 / 2) = [c8rowEarly] := by
  unfold testSplitRows
  rw [c8features_clean]
  have hlen : ([c8rowLate, c8rowEarly] : List SRow).length = 2 := rfl
  rw [hlen, splitIndex_two_half]
  rfl

theorem c8sorted_train :
    trainSplitRows c8sorted "Position" (1 / 2) = [c8rowEarly] := by
  unfold trainSplitRows
  rw [c8sorted_clean]
  have hlen : ([c8rowEarly, c8rowLate] : List SRow).length = 2 := rfl
  rw [hlen, splitIndex_two_half]
  rfl

theorem c8sorted_test :
    testSplitRows c8sorted "Position" (1 / 2) = [c8rowLate] := by
  unfold testSplitRows
  rw [c8sorted_clean]
  have hlen : ([c8rowEarly, c8rowLate] : List SRow).length = 2 := rfl
  rw [hlen, splitIndex_two_half]
  rfl

/-- C8 counterexample: on a feature table whose rows are in reverse
chronological order, the positional split at test size 1/2 puts the 2025
row in the training split and the 2024 row in the test split, so the
test row is not strictly later in time than the training row. -/
theorem C8_counterexample :
    ¬ chronologicalSplit c8features "Position" (1 / 2) ∧
    trainSplitRows c8features "Position" (1 / 2) = [c8rowLate] ∧
    testSplitRows c8features "Position" (1 / 2) = [c8rowEarly] ∧
    yearOf c8rowLate = 2025 ∧ yearOf c8rowEarly = 2024 := by
  refine ⟨?_, c8features_train, c8features_test, rfl, rfl⟩
  intro hc
  have hthis := hc c8rowLate (by rw [c8features_train]; simp)
    c8rowEarly (by rw [c8features_test]; simp)
  have hy1 : yearOf c8rowLate = 2025 := rfl
  have hy2 : yearOf c8rowEarly = 2024 := rfl
  unfold timeEarlier at hthis
  rw [hy1, hy2] at hthis
  rcases hthis with h | ⟨h, _⟩
  · norm_num at h
  · norm_num at h

/-- C8 amended: prepare_training_data splits the cleaned rows
positionally at the fraction boundary int(n * (1 - test_size)) in the
table's given row order, without sorting: the training matrix is the
projection of the first rows, the test matrix of the remaining rows, and
the two splits concatenate back to the cleaned rows.  Only when the
cleaned rows are already chronologically (weakly) ordered is every test
row at least as late in time as every training row; strict lateness, and
any time ordering for unsorted input, are not guaranteed. -/
theorem C8_corrected (features : FTable) (targetCol : String) (testSize : ℚ)
    (hsort : List.Pairwise timeLe (cleanRows features targetCol)) :
    (FeatureStore.prepare_training_data features targetCol testSize).1.rows =
      (trainSplitRows features targetCol testSize).map
        (projectRow (featureColumns features targetCol)) ∧
    (FeatureStore.prepare_training_data features targetCol testSize).2.1.rows =
      (testSplitRows features targetCol testSize).map
        (projectRow (featureColumns features targetCol)) ∧
    trainSplitRows features targetCol testSize ++
      testSplitRows features targetCol testSize = cleanRows features targetCol ∧
    (∀ a ∈ trainSplitRows features targetCol testSize,
      ∀ b ∈ testSplitRows features targetCol testSize, timeLe a b) := by
  refine ⟨?_, ?_, List.take_append_drop _ _, ?_⟩
  · unfold FeatureStore.prepare_training_data trainSplitRows
    dsimp only
    rw [List.map_take]
  · unfold FeatureStore.prepare_training_data testSplitRows
    dsimp only
    rw [List.map_drop]
  · intro a ha b hb
    rw [← List.take_append_drop
      (splitIndex (cleanRows features targetCol).length testSize)
      (cleanRows features targetCol)] at hsort
    exact (List.pairwise_append.mp hsort).2.2 a ha b hb

/-- C8 witness: the amended statement on the chronologically ordered
table, with the time comparison applied to the two concrete rows. -/
theorem C8_corrected_witness :
    (FeatureStore.prepare_training_data c8sorted "Position" (1 / 2)).1.rows =
      (trainSplitRows c8sorted "Position" (1 / 2)).map
        (projectRow (featureColumns c8sorted "Position")) ∧
    trainSplitRows c8sorted "Position" (1 / 2) ++
      testSplitRows c8sorted "Position" (1 / 2) = cleanRows c8sorted "Position" ∧
    timeLe c8rowEarly c8rowLate :=
  ⟨(C8_corrected c8sorted "Position" (1 / 2) (by decide)).1,
   (C8_corrected c8sorted "Position" (1 / 2) (by decide)).2.2.1,
   (C8_corrected c8sorted "Position" (1 / 2) (by decide)).2.2.2 c8rowEarly
     (by rw [c8sorted_train]; simp) c8rowLate (by rw [c8sorted_test]; simp)⟩

/-! ### Claim C9 -/

theorem npRound_intCast (z : ℤ) : npRound (z : ℚ) = z := by
  unfold npRound
  norm_num

theorem beq_decide_iff (A B : Prop) [Decidable A] [Decidable B] :
    (decide A == decide B) = decide (A ↔ B) := by
  by_cases hA : A <;> by_cases hB : B <;> simp [hA, hB]

theorem countP_zip_eq_range (f : ℚ → ℚ → Bool) :
    ∀ (yt yp : List ℚ), yt.length = yp.length →
      (yt.zip yp).countP (fun p => f p.1 p.2) =
        (List.range yt.length).countP (fun i => f (yt.getD i 0) (yp.getD i 0))
  | [], [], _ => rfl
  | [], _ :: _, h => by simp at h
  | _ :: _, [], h => by simp at h
  | a :: as, b :: bs, h => by
      have hlen : as.length = bs.length := by simpa using h
      rw [List.zip_cons_cons, List.countP_cons, List.length_cons,
        List.range_succ_eq_map, List.countP_cons, List.countP_map,
        countP_zip_eq_range f as bs hlen]
      have hfun : ((fun i => f ((a :: as).getD i 0) ((b :: bs).getD i 0)) ∘ Nat.succ)
          = (fun i => f (as.getD i 0) (bs.getD i 0)) := by
        funext i
        simp
      rw [hfun]
      simp

/-- C9: evaluate_position_predictions computes top-k accuracy for
k in 3, 5, 10 as the fraction of rows where membership of the predicted
rank in the top k coincides with membership of the true rank, the
exact-match accuracy as the fraction of rows whose true position equals
the rounded prediction, and the within-tolerance accuracies as the
fraction of rows with absolute error at most d; on true positions
[1,2,3,4,5] and predictions [1,3,2,4,5] the exact-match accuracy is 0.6,
the within-one accuracy 1.0 and the top-3 accuracy 1.0. -/
theorem C9_evaluator (yTrue yPred : List ℚ) (hlen : yTrue.length = yPred.length) :
    ((ModelEvaluator.evaluate_position_predictions yTrue yPred).top3Accuracy =
        specTopK 3 yTrue yPred yTrue.length ∧
      (ModelEvaluator.evaluate_position_predictions yTrue yPred).top5Accuracy =
        specTopK 5 yTrue yPred yTrue.length ∧
      (ModelEvaluator.evaluate_position_predictions yTrue yPred).top10Accuracy =
        specTopK 10 yTrue yPred yTrue.length ∧
      (ModelEvaluator.evaluate_position_predictions yTrue yPred).exactAcc =
        specExact yTrue yPred yTrue.length ∧
      (ModelEvaluator.evaluate_position_predictions yTrue yPred).within1 =
        specWithin 1 yTrue yPred yTrue.length ∧
      (ModelEvaluator.evaluate_position_predictions yTrue yPred).within2 =
        specWithin 2 yTrue yPred yTrue.length ∧
      (ModelEvaluator.evaluate_position_predictions yTrue yPred).within3 =
        specWithin 3 yTrue yPred yTrue.length) ∧
    ((ModelEvaluator.evaluate_position_predictions
        [1, 2, 3, 4, 5] [1, 3, 2, 4, 5]).exactAcc = 3 / 5 ∧
      (ModelEvaluator.evaluate_position_predictions
        [1, 2, 3, 4, 5] [1, 3, 2, 4, 5]).within1 = 1 ∧
      (ModelEvaluator.evaluate_position_predictions
        [1, 2, 3, 4, 5] [1, 3, 2, 4, 5]).top3Accuracy = 1) := by
  have hziplen : (yTrue.zip yPred).length = yTrue.length := by
    rw [List.length_zip, hlen, Nat.min_self]
  constructor
  · have htopk : ∀ k : ℚ, topkAccuracy k yTrue yPred = specTopK k yTrue yPred yTrue.length := by
      intro k
      unfold topkAccuracy specTopK
      rw [hziplen, countP_zip_eq_range (fun a b => decide (b ≤ k) == decide (a ≤ k))
        yTrue yPred hlen]
      have hfun : (fun i => decide (yPred.getD i 0 ≤ k) == decide (yTrue.getD i 0 ≤ k))
          = (fun i => decide ((yPred.getD i 0 ≤ k) ↔ (yTrue.getD i 0 ≤ k))) := by
        funext i
        exact beq_decide_iff _ _
      rw [hfun]
    have hexact : exactAccuracy yTrue yPred = specExact yTrue yPred yTrue.length := by
      unfold exactAccuracy specExact
      rw [hziplen, countP_zip_eq_range (fun a b => a == npRound b) yTrue yPred hlen]
    have hwithin : ∀ d : ℚ, withinAccuracy d yTrue yPred =
        specWithin d yTrue yPred yTrue.length := by
      intro d
      unfold withinAccuracy specWithin
      rw [hziplen, countP_zip_eq_range (fun a b => decide (|a - b| ≤ d)) yTrue yPred hlen]
    exact ⟨htopk 3, htopk 5, htopk 10, hexact, hwithin 1, hwithin 2, hwithin 3⟩
  · have h1 : npRound (1 : ℚ) = 1 := by norm_num [npRound]
    have h2 : npRound (2 : ℚ) = 2 := by norm_num [npRound]
    have h3 : npRound (3 : ℚ) = 3 := by norm_num [npRound]
    have h4 : npRound (4 : ℚ) = 4 := by norm_num [npRound]
    have h5 : npRound (5 : ℚ) = 5 := by norm_num [npRound]
    have hzip : (([1, 2, 3, 4, 5] : List ℚ).zip ([1, 3, 2, 4, 5] : List ℚ)) =
        [(1, 1), (2, 3), (3, 2), (4, 4), (5, 5)] := rfl
    refine ⟨?_, ?_, ?_⟩
    · unfold ModelEvaluator.evaluate_position_predictions exactAccuracy
      rw [hzip]
      simp only [List.countP_cons, List.countP_nil, h1, h2, h3, h4, h5]
      norm_num
    · unfold ModelEvaluator.evaluate_position_predictions withinAccuracy
      rw [hzip]
      norm_num [List.countP_cons]
    · unfold ModelEvaluator.evaluate_position_predictions topkAccuracy
      rw [hzip]
      norm_num [List.countP_cons]

/-- C9 witness: the general metric characterisation applied to the
concrete scenario lists. -/
theorem C9_evaluator_witness :
    (ModelEvaluator.evaluate_position_predictions
        ([1, 2, 3, 4, 5] : List ℚ) [1, 3, 2, 4, 5]).top3Accuracy =
      specTopK 3 [1, 2, 3, 4, 5] [1, 3, 2, 4, 5] 5 ∧
    (ModelEvaluator.evaluate_position_predictions
        ([1, 2, 3, 4, 5] : List ℚ) [1, 3, 2, 4, 5]).exactAcc = 3 / 5 :=
  ⟨(C9_evaluator [1, 2, 3, 4, 5] [1, 3, 2, 4, 5] (by decide)).1.1,
   (C9_evaluator [1, 2, 3, 4, 5] [1, 3, 2, 4, 5] (by decide)).2.1⟩

/-! ### Claim C6 -/

theorem length_expandingMeans (xs : List ℚ) : (expandingMeans xs).length = xs.length := by
  rw [expandingMeans, List.length_map, List.length_range]

theorem length_expandingMins (xs : List ℚ) : (expandingMins xs).length = xs.length := by
  rw [expandingMins, List.length_map, List.length_range]

theorem shiftOne_getD_zero (xs : List ℚ) (h : 0 < xs.length) :
    (shiftOne xs).getD 0 none = none := by
  unfold shiftOne
  rw [List.getD_eq_getElem?_getD, List.getElem?_take]
  rw [if_pos h, List.getElem?_cons_zero]
  rfl

theorem shiftOne_getD_succ (xs : List ℚ) (j : Nat) (h : j + 1 < xs.length) :
    (shiftOne xs).getD (j + 1) none = xs[j]? := by
  unfold shiftOne
  rw [List.getD_eq_getElem?_getD, List.getElem?_take, if_pos h,
    List.getElem?_cons_succ, List.getElem?_map]
  cases hx : xs[j]? with
  | none => rfl
  | some v => rfl

theorem expandingMeans_getElem (xs : List ℚ) (j : Nat) (h : j < xs.length) :
    (expandingMeans xs)[j]? = some (listMean (xs.take (j + 1))) := by
  unfold expandingMeans
  rw [List.getElem?_map, List.getElem?_range h]
  rfl

theorem expandingMins_getElem (xs : List ℚ) (j : Nat) (h : j < xs.length) :
    (expandingMins xs)[j]? = some (listMinD (xs.take (j + 1))) := by
  unfold expandingMins
  rw [List.getElem?_map, List.getElem?_range h]
  rfl

theorem trackChunk_getD (td : List FRow) (i : Nat) (hi : i < td.length) :
    ((trackChunk td).getD i dummyFRow).trackAvgPos =
      (if i = 0 then none
       else some (listMean ((td.map (fun r => (r.base.position : ℚ))).take i))) ∧
    ((trackChunk td).getD i dummyFRow).trackBestPos =
      (if i = 0 then none
       else some (listMinD ((td.map (fun r => (r.base.position : ℚ))).take i))) := by
  have hlen : (td.map (fun r => (r.base.position : ℚ))).length = td.length :=
    List.length_map _ _
  have hgd : (trackChunk td).getD i dummyFRow =
      { td[i] with
          trackAvgPos := (shiftOne (expandingMeans
            (td.map (fun r => (r.base.position : ℚ))))).getD i none,
          trackBestPos := (shiftOne (expandingMins
            (td.map (fun r => (r.base.position : ℚ))))).getD i none,
          trackRaces := some (i : ℚ) } := by
    unfold trackChunk
    dsimp only
    rw [List.getD_eq_getElem?_getD, List.getElem?_mapIdx, List.getElem?_eq_getElem hi]
    rfl
  rw [hgd]
  cases i with
  | zero =>
      have h0 : (0 : Nat) < (expandingMeans
          (td.map (fun r => (r.base.position : ℚ)))).length := by
        rw [length_expandingMeans, hlen]
        exact hi
      have h0m : (0 : Nat) < (expandingMins
          (td.map (fun r => (r.base.position : ℚ)))).length := by
        rw [length_expandingMins, hlen]
        exact hi
      constructor
      · show (shiftOne (expandingMeans _)).getD 0 none = _
        rw [shiftOne_getD_zero _ h0]
        simp
      · show (shiftOne (expandingMins _)).getD 0 none = _
        rw [shiftOne_getD_zero _ h0m]
        simp
  | succ j =>
      have hj1 : j + 1 < (expandingMeans
          (td.map (fun r => (r.base.position : ℚ)))).length := by
        rw [length_expandingMeans, hlen]
        exact hi
      have hj1m : j + 1 < (expandingMins
          (td.map (fun r => (r.base.position : ℚ)))).length := by
        rw [length_expandingMins, hlen]
        exact hi
      have hj : j < (td.map (fun r => (r.base.position : ℚ))).length := by
        rw [hlen]
        omega
      constructor
      · show (shiftOne (expandingMeans _)).getD (j + 1) none = _
        rw [shiftOne_getD_succ _ j hj1, expandingMeans_getElem _ j hj]
        simp
      · show (shiftOne (expandingMins _)).getD (j + 1) none = _
        rw [shiftOne_getD_succ _ j hj1m, expandingMins_getElem _ j hj]
        simp

theorem trackChunk_bases (td : List FRow) : bases (trackChunk td) = bases td := by
  unfold trackChunk bases
  dsimp only
  exact map_mapIdx_eq _ _ td (fun _ _ => rfl)

theorem mem_trackChunk_base {td : List FRow} {y : FRow} (hy : y ∈ trackChunk td) :
    ∃ z ∈ td, z.base = y.base := by
  have hb : y.base ∈ bases td := by
    rw [← trackChunk_bases td]
    exact List.mem_map_of_mem _ hy
  rcases List.mem_map.mp hb with ⟨z, hz, he⟩
  exact ⟨z, hz, he⟩

theorem track_filter_eq (rows : List FRow) (d t : String) :
    (FeatureEngineer.create_track_history_features rows).filter
        (fun r => r.base.abbr == d && r.base.event == t) =
      trackChunk (pairVisits rows d t) := by
  unfold FeatureEngineer.create_track_history_features pairVisits
  dsimp only
  rw [List.filter_flatMap]
  by_cases hd : d ∈ firstUniq ((sortFRows rows).map (fun r => r.base.abbr))
  · rw [flatMap_collapse _ d _ (firstUniq_nodup _) ?_, if_pos hd]
    rotate_left
    · intro d2 _ hne
      rw [List.filter_flatMap]
      apply flatMap_eq_nil_of
      intro t2 _
      rw [List.filter_eq_nil_iff]
      intro y hy hpy
      rcases mem_trackChunk_base hy with ⟨z, hz, hbe⟩
      have hz1 : z.base.abbr = d2 := by
        have := (List.mem_filter.mp (List.mem_filter.mp hz).1).2
        simpa using this
      have hpy1 : y.base.abbr = d := by
        have h2 := hpy
        simp only [Bool.and_eq_true, beq_iff_eq] at h2
        exact h2.1
      exact hne (by rw [← hz1, hbe, hpy1])
    rw [List.filter_flatMap]
    by_cases ht : t ∈ firstUniq
        (((sortFRows rows).filter (fun r => r.base.abbr == d)).map (fun r => r.base.event))
    · rw [flatMap_collapse _ t _ (firstUniq_nodup _) ?_, if_pos ht]
      rotate_left
      · intro t2 _ hne
        rw [List.filter_eq_nil_iff]
        intro y hy hpy
        rcases mem_trackChunk_base hy with ⟨z, hz, hbe⟩
        have hz1 : z.base.event = t2 := by
          have := (List.mem_filter.mp hz).2
          simpa using this
        have hpy1 : y.base.event = t := by
          have h2 := hpy
          simp only [Bool.and_eq_true, beq_iff_eq] at h2
          exact h2.2
        exact hne (by rw [← hz1, hbe, hpy1])
      apply List.filter_eq_self.mpr
      intro y hy
      rcases mem_trackChunk_base hy with ⟨z, hz, hbe⟩
      have hz1 : z.base.abbr = d := by
        have := (List.mem_filter.mp (List.mem_filter.mp hz).1).2
        simpa using this
      have hz2 : z.base.event = t := by
        have := (List.mem_filter.mp hz).2
        simpa using this
      simp only [Bool.and_eq_true, beq_iff_eq, ← hbe]
      exact ⟨hz1, hz2⟩
    · have hnil : ((sortFRows rows).filter (fun r => r.base.abbr == d)).filter
          (fun r => r.base.event == t) = [] := by
        rw [List.filter_eq_nil_iff]
        intro r hr hrt
        apply ht
        rw [mem_firstUniq]
        have hre : r.base.event = t := by simpa using hrt
        rw [← hre]
        exact List.mem_map_of_mem _ hr
      rw [hnil]
      rw [show trackChunk [] = [] from rfl]
      apply flatMap_eq_nil_of
      intro t2 ht2
      rw [List.filter_eq_nil_iff]
      intro y hy hpy
      rcases mem_trackChunk_base hy with ⟨z, hz, hbe⟩
      have hz2 : z.base.event = t2 := by
        have := (List.mem_filter.mp hz).2
        simpa using this
      have hpy1 : y.base.event = t := by
        have h2 := hpy
        simp only [Bool.and_eq_true, beq_iff_eq] at h2
        exact h2.2
      have htt : t2 = t := by rw [← hz2, hbe, hpy1]
      exact ht (htt ▸ ht2)
  · have hdd : (sortFRows rows).filter (fun r => r.base.abbr == d) = [] := by
      rw [List.filter_eq_nil_iff]
      intro r hr hrd
      apply hd
      rw [mem_firstUniq]
      have hra : r.base.abbr = d := by simpa using hrd
      rw [← hra]
      exact List.mem_map_of_mem _ hr
    rw [hdd]
    rw [show ([] : List FRow).filter (fun r => r.base.event == t) = [] from rfl]
    rw [show trackChunk [] = [] from rfl]
    apply flatMap_eq_nil_of
    intro d2 hd2
    rw [List.filter_flatMap]
    apply flatMap_eq_nil_of
    intro t2 _
    rw [List.filter_eq_nil_iff]
    intro y hy hpy
    rcases mem_trackChunk_base hy with ⟨z, hz, hbe⟩
    have hz1 : z.base.abbr = d2 := by
      have := (List.mem_filter.mp (List.mem_filter.mp hz).1).2
      simpa using this
    have hpy1 : y.base.abbr = d := by
      have h2 := hpy
      simp only [Bool.and_eq_true, beq_iff_eq] at h2
      exact h2.1
    apply hd
    rw [show d = d2 from by rw [← hz1, hbe, hpy1]]
    exact hd2

/-- C6: for every input frame and (driver, track) pair, the rows that
create_track_history_features produces for that pair are exactly the
lagged expanding statistics of the pair's chronologically sorted visit
list: the first visit's features are the missing-value sentinel, and the
features of visit i are the mean and minimum of the finishing positions
of the visits strictly before i — the visit's own result never enters
its own feature. -/
theorem C6_track_history (rows : List FRow) (d t : String) :
    (FeatureEngineer.create_track_history_features rows).filter
        (fun r => r.base.abbr == d && r.base.event == t) =
      trackChunk (pairVisits rows d t) ∧
    (∀ i, i < (pairVisits rows d t).length →
      ((trackChunk (pairVisits rows d t)).getD i dummyFRow).trackAvgPos =
        (if i = 0 then none
         else some (listMean (((pairVisits rows d t).map
           (fun r => (r.base.position : ℚ))).take i))) ∧
      ((trackChunk (pairVisits rows d t)).getD i dummyFRow).trackBestPos =
        (if i = 0 then none
         else some (listMinD (((pairVisits rows d t).map
           (fun r => (r.base.position : ℚ))).take i)))) :=
  ⟨track_filter_eq rows d t, fun i hi => trackChunk_getD (pairVisits rows d t) i hi⟩

/-- C6 witness: the three-visit history of (VER, GP1): the first visit
has no-history sentinels, the second sees only the first visit's result. -/
theorem C6_track_history_witness :
    (FeatureEngineer.create_track_history_features c6rows).filter
        (fun r => r.base.abbr == "VER" && r.base.event == "GP1") =
      trackChunk (pairVisits c6rows "VER" "GP1") ∧
    ((trackChunk (pairVisits c6rows "VER" "GP1")).getD 0 dummyFRow).trackAvgPos = none ∧
    ((trackChunk (pairVisits c6rows "VER" "GP1")).getD 1 dummyFRow).trackAvgPos =
      some (listMean (((pairVisits c6rows "VER" "GP1").map
        (fun r => (r.base.position : ℚ))).take 1)) :=
  ⟨(C6_track_history c6rows "VER" "GP1").1,
   by
    have h := ((C6_track_history c6rows "VER" "GP1").2 0 (by decide)).1
    rw [if_pos rfl] at h
    exact h,
   by
    have h := ((C6_track_history c6rows "VER" "GP1").2 1 (by decide)).1
    rw [if_neg (by decide)] at h
    exact h⟩

/-! ### Claim C7 -/

theorem bases_map_eq (f : FRow → FRow) (hf : ∀ r, (f r).base = r.base) :
    ∀ (l : List FRow), bases (l.map f) = bases l
  | [] => rfl
  | a :: t => by
      have ih := bases_map_eq f hf t
      unfold bases at ih ⊢
      simp only [List.map_cons]
      rw [hf a, ih]

theorem bases_map_perm (f : FRow → FRow) (hf : ∀ r, (f r).base = r.base) (l : List FRow) :
    List.Perm (bases (l.map f)) (bases l) := by
  rw [bases_map_eq f hf l]

theorem perm_flatMap_chunks {κ : Type} [DecidableEq κ] (key : RaceRow → κ)
    (chunk : κ → List FRow → List FRow)
    (hchunk : ∀ k td, List.Perm (bases (chunk k td)) (bases td)) (l : List FRow) :
    List.Perm
      (bases ((firstUniq (l.map (fun r => key r.base))).flatMap
        (fun k => chunk k (l.filter (fun r => key r.base == k)))))
      (bases l) := by
  unfold bases
  rw [List.map_flatMap]
  have hmid : List.Perm
      ((firstUniq (l.map (fun r => key r.base))).flatMap
        (fun k => (chunk k (l.filter (fun r => key r.base == k))).map (fun r => r.base)))
      ((firstUniq (l.map (fun r => key r.base))).flatMap
        (fun k => (l.map (fun r => r.base)).filter (fun x => key x == k))) := by
    apply flatMap_perm_congr
    intro k _
    have h3 : (List.filter (fun r => key r.base == k) l).map (fun r => r.base) =
        (l.map (fun r => r.base)).filter (fun x => key x == k) :=
      map_filter_comm (fun r => r.base) (fun x => key x == k) l
    rw [← h3]
    exact hchunk k (l.filter (fun r => key r.base == k))
  have hpart : List.Perm
      ((firstUniq (l.map (fun r => key r.base))).flatMap
        (fun k => (l.map (fun r => r.base)).filter (fun x => key x == k)))
      (l.map (fun r => r.base)) := by
    have hk : l.map (fun r => key r.base) = (l.map (fun r => r.base)).map key := by
      rw [List.map_map]
      rfl
    rw [hk]
    exact partition_perm key (l.map (fun r => r.base))
  exact hmid.trans hpart

theorem bases_driver_form_perm (rows : List FRow) :
    List.Perm (bases (FeatureEngineer.create_driver_form_features rows)) (bases rows) := by
  unfold FeatureEngineer.create_driver_form_features
  dsimp only
  refine (perm_flatMap_chunks (fun x => x.abbr) (fun _ td => driverFormChunk td)
      ?_ (sortFRows rows)).trans ?_
  · intro k td
    have he : bases (driverFormChunk td) = bases td := by
      unfold bases driverFormChunk
      dsimp only
      exact map_mapIdx_eq _ _ td (fun _ _ => rfl)
    rw [he]
  · unfold bases
    exact (List.perm_insertionSort frowYrLe rows).map (fun r => r.base)

theorem bases_team_perm (rows : List FRow) :
    List.Perm (bases (FeatureEngineer.create_team_features rows)) (bases rows) := by
  unfold FeatureEngineer.create_team_features
  dsimp only
  refine (perm_flatMap_chunks (fun x => x.team) (fun _ td => teamFormChunk td)
      ?_ (sortFRows rows)).trans ?_
  · intro k td
    have he : bases (teamFormChunk td) = bases td := by
      unfold bases teamFormChunk
      dsimp only
      exact map_mapIdx_eq _ _ td (fun _ _ => rfl)
    rw [he]
  · unfold bases
    exact (List.perm_insertionSort frowYrLe rows).map (fun r => r.base)

theorem bases_track_perm (rows : List FRow) :
    List.Perm (bases (FeatureEngineer.create_track_history_features rows)) (bases rows) := by
  unfold FeatureEngineer.create_track_history_features
  dsimp only
  refine (perm_flatMap_chunks (fun x => x.abbr)
      (fun _ dd => (firstUniq (dd.map (fun r => r.base.event))).flatMap
        (fun t => trackChunk (dd.filter (fun r => r.base.event == t))))
      ?_ (sortFRows rows)).trans ?_
  · intro k td
    refine perm_flatMap_chunks (fun x => x.event) (fun _ td2 => trackChunk td2) ?_ td
    intro k2 td2
    rw [trackChunk_bases td2]
  · unfold bases
    exact (List.perm_insertionSort frowYrLe rows).map (fun r => r.base)

theorem bases_champ_perm (rows : List FRow) :
    List.Perm (bases (FeatureEngineer.create_championship_position_features rows)) (bases rows) := by
  unfold FeatureEngineer.create_championship_position_features
  dsimp only
  refine (perm_flatMap_chunks (fun x => x.year)
      (fun y yd => (firstUniq (yd.map (fun r => r.base.round))).flatMap
        (fun rd =>
          if (yd.filter (fun r => decide (r.base.round < rd))).isEmpty then
            (yd.filter (fun r => r.base.round == rd)).map
              (fun r => { r with champPos := some 20 })
          else
            (yd.filter (fun r => r.base.round == rd)).map
              (champAssign (champStandings
                (yd.filter (fun r => decide (r.base.round < rd)))))))
      ?_ (sortFRows rows)).trans ?_
  · intro y yd
    refine perm_flatMap_chunks (fun x => x.round)
      (fun rd td2 =>
        if (yd.filter (fun r => decide (r.base.round < rd))).isEmpty then
          td2.map (fun r => { r with champPos := some 20 })
        else
          td2.map (champAssign (champStandings
            (yd.filter (fun r => decide (r.base.round < rd))))))
      ?_ yd
    intro rd td2
    dsimp only
    by_cases hp : (yd.filter (fun r => decide (r.base.round < rd))).isEmpty = true
    · rw [if_pos hp]
      apply bases_map_perm
      intro r
      rfl
    · rw [if_neg hp]
      apply bases_map_perm
      intro r
      unfold champAssign
      cases List.lookup r.base.abbr
          (champStandings (yd.filter (fun r => decide (r.base.round < rd)))) <;> rfl
  · unfold bases
    exact (List.perm_insertionSort frowYrLe rows).map (fun r => r.base)

theorem filter_key_length_le_one {α κ : Type} [DecidableEq κ] (key : α → κ) (k : κ)
    (p : α → Bool) (hp : ∀ x, p x = true ↔ key x = k) :
    ∀ (l : List α), ((l.map key).Nodup) → (l.filter p).length ≤ 1
  | [], _ => by simp
  | a :: t, hnd => by
      rw [List.map_cons, List.nodup_cons] at hnd
      rw [List.filter_cons]
      by_cases h : p a = true
      · rw [if_pos h]
        have ht : t.filter p = [] := by
          rw [List.filter_eq_nil_iff]
          intro x hx hxk
          apply hnd.1
          rw [(hp a).mp h, ← (hp x).mp hxk]
          exact List.mem_map_of_mem key hx
        rw [ht]
        simp
      · rw [if_neg h]
        exact filter_key_length_le_one key k p hp t hnd.2

theorem bases_qualifying_eq (race : List FRow) (qual : List QualRow)
    (hq : (qual.map qualKey).Nodup) :
    bases (FeatureEngineer.create_qualifying_features race qual) = bases race := by
  unfold bases FeatureEngineer.create_qualifying_features
  apply map_flatMap_singleton
  intro r
  dsimp only
  have hp : ∀ q : QualRow, (q.year == r.base.year &&
        (q.event == r.base.event && q.abbr == r.base.abbr)) = true ↔
      qualKey q = (r.base.year, r.base.event, r.base.abbr) := by
    intro q
    simp [qualKey, Prod.ext_iff]
  have hle := filter_key_length_le_one qualKey (r.base.year, r.base.event, r.base.abbr)
    (fun q => q.year == r.base.year && (q.event == r.base.event && q.abbr == r.base.abbr))
    hp qual hq
  rcases eq_nil_or_singleton_of_length_le_one _ hle with hnil | ⟨q, hone⟩
  · rw [hnil]
    rfl
  · rw [hone]
    rfl

theorem bases_init (race : List RaceRow) : bases (race.map initFRow) = race := by
  unfold bases
  rw [List.map_map]
  exact List.map_id race

theorem bases_engineer_perm (race : List RaceRow) (qual : List QualRow)
    (hq : (qual.map qualKey).Nodup) :
    List.Perm (bases (FeatureEngineer.engineer_all_features race qual)) race := by
  unfold FeatureEngineer.engineer_all_features
  dsimp only
  rw [bases_map_eq (fun r =>
    { r with raceNumber := some ((r.base.round : ℚ)), isHomeRace := some 0 }) (fun r => rfl) _]
  refine (bases_champ_perm _).trans ?_
  refine (bases_track_perm _).trans ?_
  refine (bases_team_perm _).trans ?_
  rw [bases_qualifying_eq _ qual hq]
  refine (bases_driver_form_perm _).trans ?_
  rw [bases_init race]

/-- C7 counterexample: a two-row race frame combined with a qualifying
frame holding a duplicated (Year, EventName, Abbreviation) key makes
engineer_all_features return three rows for two input rows, with a
duplicated (Year, RoundNumber, Abbreviation) key, even though the race
frame itself had no duplicate keys. -/
theorem C7_counterexample :
    (FeatureEngineer.engineer_all_features c7race c7qual).length = 3 ∧
    c7race.length = 2 ∧
    ¬ ((FeatureEngineer.engineer_all_features c7race c7qual).map frowKey).Nodup ∧
    (c7race.map raceRowKey).Nodup := by
  decide

/-- C7 (corrected): when the qualifying frame has no duplicate
(Year, EventName, Abbreviation) merge keys, engineer_all_features
returns exactly one output row per input race row, and if the race frame
has no duplicate (Year, RoundNumber, Abbreviation) keys then neither
does the output; with duplicated qualifying keys the left-merge of the
qualifying step can replicate race rows, so the claim as stated (for
every qualifying table) is false. -/
theorem C7_corrected (race : List RaceRow) (qual : List QualRow)
    (hq : (qual.map qualKey).Nodup) :
    (FeatureEngineer.engineer_all_features race qual).length = race.length ∧
    ((race.map raceRowKey).Nodup →
      ((FeatureEngineer.engineer_all_features race qual).map frowKey).Nodup) := by
  have hperm := bases_engineer_perm race qual hq
  constructor
  · have hlen := hperm.length_eq
    unfold bases at hlen
    rw [List.length_map] at hlen
    exact hlen
  · intro hnd
    have hkeys : (FeatureEngineer.engineer_all_features race qual).map frowKey =
        (bases (FeatureEngineer.engineer_all_features race qual)).map raceRowKey := by
      unfold bases
      rw [List.map_map]
      rfl
    rw [hkeys]
    exact ((hperm.map raceRowKey).nodup_iff).mpr hnd

/-- C7 witness: on the two-row race frame with a duplicate-free
qualifying frame the row count is preserved and the keys stay unique. -/
theorem C7_corrected_witness :
    (FeatureEngineer.engineer_all_features c7race c7qualGood).length = c7race.length ∧
    ((FeatureEngineer.engineer_all_features c7race c7qualGood).map frowKey).Nodup :=
  ⟨(C7_corrected c7race c7qualGood (by decide)).1,
   (C7_corrected c7race c7qualGood (by decide)).2 (by decide)⟩

end F1ML
